import Mathlib

/-!
# Tetris-3D: the game simulation of `TetrisApp.cpp`

A shallow embedding of the simulation part of `src/Tetris3D/TetrisApp.cpp`
(board, piece catalog, collision test, rotation, merge, line clearing, game
over test, the lock step, the keyboard commands and the gravity branch of
`Update`), followed by theorems about it.

Conventions of the embedding.

* A C `int[..][..]` array is a `Grid`, a function from a row index and a
  column index to the stored `int`.  Indices are `Int` because the source
  computes them as `y + i` and `x + j` with a possibly negative anchor.  The
  board `map` is meaningful on rows `0..21` and columns `0..10`, a shape
  (`CBlock`, `rblock`, `BLOCK[t]`) on `0..4` by `0..4`; the source has no
  defined behaviour when it indexes an array elsewhere, so theorems about a
  function that indexes without a bounds test say where the indices lie.
* The members `x`, `y` are `unsigned int` in the source and are handed to
  `int` parameters; the value `-1` written by the spawn code is read back as
  `-1` by every callee.  They are modelled by `Int`, the signed reading.
* A `for` loop with a counter is `forRange`, a search loop that leaves with
  `return`/`break` at the first hit is `anyRange`.
* `rand()` is an explicit argument.
* The performance counter is an explicit argument; the elapsed time that `Update` computes
  in floating point and compares with `1.0f` is a rational argument.
-/

namespace Tetris

/-! ## Arrays and loops -/

/-- A two dimensional `int` array, read as `a r c` for the C expression `a[r][c]`. -/
abbrev Grid := Int → Int → Int

/-- The C assignment `m[r][c] = v`. -/
def setCell (m : Grid) (r c v : Int) : Grid :=
  fun r' c' => if r' = r ∧ c' = c then v else m r' c'

/-- Runs `body i`, `body (i+1)`, ... for `n` consecutive counter values. -/
def forLoop {σ : Type} (body : Int → σ → σ) : Int → Nat → σ → σ
  | _, 0, s => s
  | i, n + 1, s => forLoop body (i + 1) n (body i s)

/-- The loop `for (i = lo; i < hi; i++) s = body i s`. -/
def forRange {σ : Type} (lo hi : Int) (body : Int → σ → σ) (s : σ) : σ :=
  forLoop body lo (hi - lo).toNat s

/-- The loop `for (; i > 0; i--) s = body i s` started at `i = n`: runs `body n`, ..., `body 1`. -/
def forDown {σ : Type} (body : Int → σ → σ) : Nat → σ → σ
  | 0, s => s
  | n + 1, s => forDown body n (body ((n : Int) + 1) s)

/-- Tests `p i`, `p (i+1)`, ... for `n` consecutive counter values, stopping at the first hit. -/
def anyLoop (p : Int → Bool) : Int → Nat → Bool
  | _, 0 => false
  | i, n + 1 => p i || anyLoop p (i + 1) n

/-- The loop `for (i = lo; i < hi; i++) if (p i) return true;` followed by `return false`. -/
def anyRange (lo hi : Int) (p : Int → Bool) : Bool :=
  anyLoop p lo (hi - lo).toNat

/-! ## Constants and the piece catalog -/

/-- The macro `HEIGHT`. -/
abbrev HEIGHT : Int := 22

/-- The macro `WIDTH`. -/
abbrev WIDTH : Int := 11

/-- Reads a table written as a list of rows; `9` stands for entries the table does not have. -/
def ofRows (rows : List (List Int)) : Grid :=
  fun i j => if 0 ≤ i ∧ 0 ≤ j then (rows.getD i.toNat []).getD j.toNat 9 else 9

/-- The constant table `BLOCK[7][5][5]`. -/
def BLOCK (t : Nat) : Grid :=
  match t with
  | 0 => ofRows [[9,9,9,9,9], [9,9,9,9,9], [9,9,4,4,9], [9,9,4,4,9], [9,9,9,9,9]]
  | 1 => ofRows [[9,9,9,9,9], [9,9,0,9,9], [9,9,0,9,9], [9,9,0,9,9], [9,9,0,9,9]]
  | 2 => ofRows [[9,9,9,9,9], [9,9,9,9,9], [9,9,5,5,9], [9,5,5,9,9], [9,9,9,9,9]]
  | 3 => ofRows [[9,9,9,9,9], [9,9,9,9,9], [9,6,6,9,9], [9,9,6,6,9], [9,9,9,9,9]]
  | 4 => ofRows [[9,9,9,9,9], [9,9,1,9,9], [9,1,1,1,9], [9,9,9,9,9], [9,9,9,9,9]]
  | 5 => ofRows [[9,9,9,9,9], [9,3,3,9,9], [9,9,3,9,9], [9,9,3,9,9], [9,9,9,9,9]]
  | 6 => ofRows [[9,9,9,9,9], [9,9,2,2,9], [9,9,2,9,9], [9,9,2,9,9], [9,9,9,9,9]]
  | _ => ofRows []

/-! ## The member functions of the simulation

Each function takes the members it reads and returns the members it writes. -/

/-- Method `TetrisApp::mapInitialize`: writes every cell of `map`. -/
def mapInitialize (map : Grid) : Grid :=
  forRange 0 HEIGHT (fun y map =>
    forRange 0 WIDTH (fun x map =>
      if y = 1 ∧ x < WIDTH - 1 ∧ x > 0 then setCell map y x 8
      else if y = HEIGHT - 1 ∨ x = 0 ∨ x = WIDTH - 1 then setCell map y x 7
      else setCell map y x 9) map) map

/-- Method `TetrisApp::blockToMap(x, y)`: copies the cells of `CBlock` that are not `9`
into `map`. -/
def blockToMap (map CBlock : Grid) (x y : Int) : Grid :=
  forRange 0 5 (fun i map =>
    forRange 0 5 (fun j map =>
      if CBlock i j ≠ 9 then setCell map (y + i) (x + j) (CBlock i j) else map) map) map

/-- Method `TetrisApp::removeLine(i)`: shifts rows `0..i-1` down by one in the interior
columns, then repairs rows 2, 1 and 0. -/
def removeLine (map : Grid) (i : Int) : Grid :=
  let shifted := forDown (fun i map =>
      forRange 1 (WIDTH - 1) (fun j map => setCell map i j (map (i - 1) j)) map) i.toNat map
  let row2 := forRange 1 (WIDTH - 1) (fun j map =>
    if map 2 j = 8 then setCell map 2 j 9 else map) shifted
  let row1 := forRange 1 (WIDTH - 1) (fun j map =>
    if map 1 j = 9 then setCell map 1 j 8 else map) row2
  forRange 1 (WIDTH - 1) (fun j map => setCell map 0 j 9) row1

/-- The inner loop of `checkLine`: the value of `flag` for row `r`, which stays `true`
iff no interior cell of the row is greater than `6`. -/
def lineFlag (map : Grid) (r : Int) : Bool :=
  !(anyRange 1 (WIDTH - 1) (fun j => decide (map r j > 6)))

/-- Method `TetrisApp::checkLine(y, &score)`: returns the new `map` and the new `*score`. -/
def checkLine (map : Grid) (y : Int) (score : Int) : Grid × Int :=
  forRange 0 5 (fun i (st : Grid × Int) =>
    if lineFlag st.1 (y + i) = true then (removeLine st.1 (y + i), st.2 + 10) else st) (map, score)

/-- Method `TetrisApp::blockInitialize(TYPE)`: copies the template `BLOCK[TYPE]` into
`CBlock`. -/
def blockInitialize (CBlock : Grid) (TYPE : Nat) : Grid :=
  forRange 0 5 (fun i CBlock =>
    forRange 0 5 (fun j CBlock =>
      if BLOCK TYPE i j ≠ 9 then setCell CBlock i j (BLOCK TYPE i j)
      else setCell CBlock i j 9) CBlock) CBlock

/-- Method `TetrisApp::checkBlock(x, y, cblock)`. -/
def checkBlock (map : Grid) (x y : Int) (cblock : Grid) : Bool :=
  anyRange 0 5 (fun i =>
    anyRange 0 5 (fun j =>
      ((decide (-1 < y + i) && decide (y + i < HEIGHT))
        && (decide (-1 < x + j) && decide (x + j < WIDTH)))
      && (decide (cblock i j < 7) && decide (map (y + i) (x + j) < 8))))

/-- The first loop nest of `blockRoll`: fills the local `rblock`, with the counters
`rj` (outer, counting down from 4) and `ri` (inner, counting up from 0). -/
def rollFill (CBlock rblock : Grid) : Grid :=
  (forRange 0 5 (fun i (st : Grid × Int) =>
    ((forRange 0 5 (fun j (st2 : Grid × Int) =>
        (setCell st2.1 i j (CBlock st2.2 st.2), st2.2 + 1)) (st.1, 0)).1, st.2 - 1))
    (rblock, 4)).1

/-- The second loop nest of `blockRoll`: copies `rblock` into `CBlock`. -/
def rollCopy (CBlock rblock : Grid) : Grid :=
  forRange 0 5 (fun i CBlock =>
    forRange 0 5 (fun j CBlock => setCell CBlock i j (rblock i j)) CBlock) CBlock

/-- Method `TetrisApp::blockRoll(x, y)`: returns the result and the new `CBlock`.  The local
`rblock` is declared without an initial value; all of its 25 cells are written by the
first loop nest before any is read (`rollFill_cell`), so it starts here as all zero. -/
def blockRoll (map CBlock : Grid) (x y : Int) : Bool × Grid :=
  let rblock := rollFill CBlock (fun _ _ => 0)
  if checkBlock map x y rblock != true then (true, rollCopy CBlock rblock)
  else (false, CBlock)

/-- Method `TetrisApp::checkOver`. -/
def checkOver (map : Grid) : Bool :=
  anyRange 1 (WIDTH - 1) (fun i => decide (map 1 i ≠ 8))

/-! ## The session state and the commands -/

/-- The members of `TetrisApp` that the simulation uses. -/
structure TetrisApp where
  map : Grid
  CBlock : Grid
  x : Int
  y : Int
  TYPE : Nat
  NextTYPE : Nat
  score : Int

/-- The method `blockToMap(x, y)` on the session state: it assigns to `map` only. -/
def TetrisApp.blockToMap (g : TetrisApp) (x y : Int) : TetrisApp :=
  { g with map := Tetris.blockToMap g.map g.CBlock x y }

/-- The call `checkLine(y, &score)` on the session state: it assigns to `map` and, through
the pointer, to `score`. -/
def TetrisApp.checkLine (g : TetrisApp) (y : Int) : TetrisApp :=
  { g with map := (Tetris.checkLine g.map y g.score).1
           score := (Tetris.checkLine g.map y g.score).2 }

/-- The method `blockRoll(x, y)` on the session state: it assigns to `CBlock` only. -/
def TetrisApp.blockRoll (g : TetrisApp) (x y : Int) : Bool × TetrisApp :=
  ((Tetris.blockRoll g.map g.CBlock x y).1,
    { g with CBlock := (Tetris.blockRoll g.map g.CBlock x y).2 })

/-- Method `TetrisApp::GameInitialize`, simulation part.  `rnd k` is what the `k`-th coming call of
`rand()` returns. -/
def GameInitialize (g : TetrisApp) (rnd : Nat → Nat) : TetrisApp :=
  { map := mapInitialize g.map
    CBlock := blockInitialize g.CBlock (rnd 0 % 7)
    x := WIDTH / 2 - 2
    y := -1
    TYPE := rnd 0 % 7
    NextTYPE := rnd 1 % 7
    score := 0 }

/-- Method `TetrisApp::BlockArrived`, simulation part: merge at the members `x`, `y`; game over
test, which restarts the session at once; line clearing at the member `y` (which a restart
has set to `-1`); spawn of the next piece.  After a restart two values of `rand()` are
already used. -/
def BlockArrived (g : TetrisApp) (rnd : Nat → Nat) : TetrisApp :=
  let g1 := g.blockToMap g.x g.y
  let over := checkOver g1.map
  let g2 := if over = true then GameInitialize g1 rnd else g1
  let g3 := g2.checkLine g2.y
  { g3 with
    TYPE := g3.NextTYPE
    NextTYPE := if over = true then rnd 2 % 7 else rnd 0 % 7
    CBlock := blockInitialize g3.CBlock g3.NextTYPE
    x := WIDTH / 2 - 2
    y := -1 }

/-- Method `OnKeyboardInput`, the branch `if (RIGHT)`. -/
def OnKeyboardInput_RIGHT (g : TetrisApp) : TetrisApp :=
  if (!checkBlock g.map (g.x + 1) g.y g.CBlock) = true then { g with x := g.x + 1 } else g

/-- Method `OnKeyboardInput`, the branch `if (LEFT)`. -/
def OnKeyboardInput_LEFT (g : TetrisApp) : TetrisApp :=
  if (!checkBlock g.map (g.x - 1) g.y g.CBlock) = true then { g with x := g.x - 1 } else g

/-- Method `OnKeyboardInput`, the branch `if (UP)`: `blockRoll` runs only when `TYPE != 0`. -/
def OnKeyboardInput_UP (g : TetrisApp) : TetrisApp :=
  if g.TYPE ≠ 0 then (g.blockRoll g.x g.y).2 else g

/-- Method `OnKeyboardInput`, the branch `if (DOWN)`. -/
def OnKeyboardInput_DOWN (g : TetrisApp) : TetrisApp :=
  if (!checkBlock g.map g.x (g.y + 1) g.CBlock) = true then { g with y := g.y + 1 } else g

/-- The loop `while (!checkBlock(x, y + 1, CBlock)) y++;` of the branch `if (SPACE)`, with a
bound `fuel` on the number of tests; `none` when the bound is reached. -/
def hardDropLoop : Nat → TetrisApp → Option TetrisApp
  | 0, _ => none
  | fuel + 1, g =>
    if (!checkBlock g.map g.x (g.y + 1) g.CBlock) = true then
      hardDropLoop fuel { g with y := g.y + 1 }
    else some g

/-- Method `OnKeyboardInput`, the branch `if (SPACE)`: the loop, then `BlockArrived()`. -/
def OnKeyboardInput_SPACE (fuel : Nat) (g : TetrisApp) (rnd : Nat → Nat) : Option TetrisApp :=
  (hardDropLoop fuel g).map (fun g1 => BlockArrived g1 rnd)

/-- The gravity branch of `Update`, as taken when a full interval has elapsed: one row down
when `checkBlock(x, y + 1, CBlock)` is false, `BlockArrived()` otherwise. -/
def Update_gravity (g : TetrisApp) (rnd : Nat → Nat) : TetrisApp :=
  if (!checkBlock g.map g.x (g.y + 1) g.CBlock) = true then { g with y := g.y + 1 }
  else BlockArrived g rnd

/-- The states of a session: the state after `GameInitialize` (from any earlier contents of
the members), and every state that a command of `OnKeyboardInput` or the gravity branch of
`Update` produces from such a state. -/
inductive Reachable : TetrisApp → Prop
  | init (g0 : TetrisApp) (rnd : Nat → Nat) : Reachable (GameInitialize g0 rnd)
  | right {g : TetrisApp} : Reachable g → Reachable (OnKeyboardInput_RIGHT g)
  | left {g : TetrisApp} : Reachable g → Reachable (OnKeyboardInput_LEFT g)
  | up {g : TetrisApp} : Reachable g → Reachable (OnKeyboardInput_UP g)
  | down {g : TetrisApp} : Reachable g → Reachable (OnKeyboardInput_DOWN g)
  | space {g : TetrisApp} (fuel : Nat) (rnd : Nat → Nat) (g1 : TetrisApp) :
      Reachable g → OnKeyboardInput_SPACE fuel g rnd = some g1 → Reachable g1
  | gravity {g : TetrisApp} (rnd : Nat → Nat) : Reachable g → Reachable (Update_gravity g rnd)

/-- The loop of the hard drop as a function of the members it reads: the row at which it
stops. -/
def dropRow (map CBlock : Grid) (x : Int) : Nat → Int → Option Int
  | 0, _ => none
  | fuel + 1, y =>
    if (!checkBlock map x (y + 1) CBlock) = true then dropRow map CBlock x fuel (y + 1)
    else some y

/-- The board rows that `checkLine(y, &score)` reads: for each `i` of its outer loop the
inner loop starts with the read `map[y + i][1]`. -/
def checkLineRows (y : Int) : List Int :=
  forRange 0 5 (fun i rows => rows ++ [y + i]) []

/-- The gravity part of `TetrisApp::Update`, which runs once per call, after
`OnKeyboardInput`.  `prevTimeForBlock` is the recorded clock value, `currTimeForBlock` the
counter value just read, and `elapsed` the number of seconds
`(currTimeForBlock - prevTimeForBlock) * gt.mSecondsPerCount` that the code compares with
`1.0f`.  The result is the new state and the new `prevTimeForBlock`; in the lock case the
code leaves the loop with `break` before it assigns the clock. -/
def Update (g : TetrisApp) (prevTimeForBlock currTimeForBlock : Int) (elapsed : ℚ)
    (rnd : Nat → Nat) : TetrisApp × Int :=
  if elapsed ≥ 1 then
    if (!checkBlock g.map g.x (g.y + 1) g.CBlock) = true then
      ({ g with y := g.y + 1 }, currTimeForBlock)
    else (BlockArrived g rnd, prevTimeForBlock)
  else (g, prevTimeForBlock)

/-! ## Vocabulary of the specification -/

/-- The cell encoding: a locked colour is `0..6`. -/
def isLocked (v : Int) : Prop := 0 ≤ v ∧ v ≤ 6

/-- The cell encoding: a wall is `7`. -/
def isWall (v : Int) : Prop := v = 7

/-- The cell encoding: a spawn marker is `8`. -/
def isSpawnMarker (v : Int) : Prop := v = 8

/-- The cell encoding: an empty cell is `9`. -/
def isEmpty (v : Int) : Prop := v = 9

/-- The coordinate lies on the board: `0 <= r < 22` and `0 <= c < 11`. -/
def InGrid (r c : Int) : Prop := 0 ≤ r ∧ r < HEIGHT ∧ 0 ≤ c ∧ c < WIDTH

/-- Every cell of the 5 x 5 shape is `Empty` or a colour `0..6`. -/
def ValidShape (s : Grid) : Prop :=
  ∀ i, 0 ≤ i → i < 5 → ∀ j, 0 ≤ j → j < 5 → isEmpty (s i j) ∨ isLocked (s i j)

/-- Every cell of the board holds one of the ten cell codes `0..9`. -/
def ValidBoard (m : Grid) : Prop :=
  ∀ r, 0 ≤ r → r < HEIGHT → ∀ c, 0 ≤ c → c < WIDTH → 0 ≤ m r c ∧ m r c ≤ 9

/-- Every non-`Empty` cell of the shape anchored at column `x`, row `y` maps to a board
coordinate inside the grid. -/
def FitsGrid (s : Grid) (x y : Int) : Prop :=
  ∀ i, 0 ≤ i → i < 5 → ∀ j, 0 ≤ j → j < 5 → ¬ isEmpty (s i j) → InGrid (y + i) (x + j)

/-- Closed form of the first loop of `removeLine(i)`: the interior of rows `1..i` holds what
the row above held. -/
def shiftedRows (map : Grid) (i : Int) : Grid :=
  fun r c => if 1 ≤ r ∧ r ≤ i ∧ 1 ≤ c ∧ c < 10 then map (r - 1) c else map r c

/-- The interior of row 0 is all `Empty`. -/
def Row0Empty (m : Grid) : Prop := ∀ j, 1 ≤ j → j < 10 → isEmpty (m 0 j)

/-- The interior of row 1 is all `SpawnMarker`. -/
def Row1Markers (m : Grid) : Prop := ∀ j, 1 ≤ j → j < 10 → isSpawnMarker (m 1 j)

/-- On the board, `SpawnMarker` occurs in row 1 only. -/
def MarkersOnlyInRow1 (m : Grid) : Prop :=
  ∀ r, 0 ≤ r → r < HEIGHT → ∀ c, 0 ≤ c → c < WIDTH → isSpawnMarker (m r c) → r = 1

/-- The interior cells (columns `1..9`) of row `r` are all `Locked`. -/
def fullRow (m : Grid) (r : Int) : Prop := ∀ j, 1 ≤ j → j < 10 → isLocked (m r j)

instance (v : Int) : Decidable (isLocked v) := by unfold isLocked; infer_instance
instance (v : Int) : Decidable (isWall v) := by unfold isWall; infer_instance
instance (v : Int) : Decidable (isSpawnMarker v) := by unfold isSpawnMarker; infer_instance
instance (v : Int) : Decidable (isEmpty v) := by unfold isEmpty; infer_instance
instance (r c : Int) : Decidable (InGrid r c) := by unfold InGrid; infer_instance
instance (s : Grid) : Decidable (ValidShape s) := by unfold ValidShape; infer_instance
instance (m : Grid) : Decidable (ValidBoard m) := by unfold ValidBoard; infer_instance
instance (s : Grid) (x y : Int) : Decidable (FitsGrid s x y) := by
  unfold FitsGrid; infer_instance
instance (m : Grid) (r : Int) : Decidable (fullRow m r) := by unfold fullRow; infer_instance
instance (m : Grid) : Decidable (Row0Empty m) := by unfold Row0Empty; infer_instance
instance (m : Grid) : Decidable (Row1Markers m) := by unfold Row1Markers; infer_instance
instance (m : Grid) : Decidable (MarkersOnlyInRow1 m) := by
  unfold MarkersOnlyInRow1; infer_instance

/-- The two boards hold the same value in every cell of the 22 x 11 grid. -/
def GridEq (a b : Grid) : Prop := ∀ r c, InGrid r c → a r c = b r c

/-- The two shapes hold the same value in every cell of the 5 x 5 box. -/
def ShapeEq (s t : Grid) : Prop := ∀ i j, 0 ≤ i → i < 5 → 0 ≤ j → j < 5 → s i j = t i j

/-- The value of the test `if (checkOver())` in `BlockArrived`, which is made on the board
right after `blockToMap(x, y)`: true means that the lock step declares the game over. -/
def BlockArrived_over (g : TetrisApp) : Bool := checkOver (g.blockToMap g.x g.y).map

/-- The filled cells of a 5 x 5 shape, those holding a colour `0..6`, as `(row, column)`
pairs in reading order. -/
def filledCells (s : Grid) : List (Int × Int) :=
  (List.range 5).flatMap (fun i : Nat =>
    (List.range 5).filterMap (fun j : Nat =>
      if isLocked (s i j) then some ((i : Int), (j : Int)) else none))

/-- The two cells share an edge. -/
def adjacent (a b : Int × Int) : Bool :=
  decide ((a.1 = b.1 ∧ (a.2 = b.2 + 1 ∨ b.2 = a.2 + 1)) ∨
    (a.2 = b.2 ∧ (a.1 = b.1 + 1 ∨ b.1 = a.1 + 1)))

/-- One round of a flood fill: the cells already seen and the cells that share an edge with
a seen cell. -/
def floodStep (cells seen : List (Int × Int)) : List (Int × Int) :=
  cells.filter (fun c => seen.contains c || seen.any (fun d => adjacent d c))

/-- The cells are edge-connected: a flood fill from the first cell, run for as many rounds
as there are cells, reaches every cell. -/
def edgeConnected (cells : List (Int × Int)) : Bool :=
  match cells with
  | [] => false
  | c :: _ => cells.all (fun d => ((floodStep cells)^[cells.length] [c]).contains d)

/-- The colour of a shape: the value of its first filled cell (`9` when it has none). -/
def colourOf (s : Grid) : Int :=
  match filledCells s with
  | [] => 9
  | c :: _ => s c.1 c.2

/-- Column 0, column 10 and row 21 of the board are all `Wall`. -/
def WallsIntact (m : Grid) : Prop :=
  (∀ r, 0 ≤ r → r < HEIGHT → isWall (m r 0) ∧ isWall (m r 10)) ∧
  (∀ c, 0 ≤ c → c < WIDTH → isWall (m 21 c))

instance (m : Grid) : Decidable (WallsIntact m) := by unfold WallsIntact; infer_instance

/-- The row has an interior cell (columns `1..9`) that is `Empty`, `SpawnMarker` or `Wall`. -/
def hasGap (m : Grid) (r : Int) : Prop :=
  ∃ j, 1 ≤ j ∧ j < 10 ∧ (isEmpty (m r j) ∨ isSpawnMarker (m r j) ∨ isWall (m r j))

instance (m : Grid) (r : Int) : Decidable (hasGap m r) :=
  decidable_of_iff
    (¬ ∀ j : Int, 1 ≤ j → j < 10 →
      ¬ (isEmpty (m r j) ∨ isSpawnMarker (m r j) ∨ isWall (m r j)))
    (by unfold hasGap; push_neg; rfl)

/-- The rows among `y .. y + n - 1` that pass the test of `checkLine` on `m`, in ascending
order. -/
def flaggedRowsUpTo (m : Grid) (y : Int) (n : Nat) : List Int :=
  ((List.range n).map (fun i : Nat => y + (i : Int))).filter (fun r => lineFlag m r)

/-- The rows among `y .. y + n - 1` that are full in `m`, in ascending order. -/
def fullRowsUpTo (m : Grid) (y : Int) (n : Nat) : List Int :=
  ((List.range n).map (fun i : Nat => y + (i : Int))).filter (fun r => decide (fullRow m r))

/-- The rows among `y .. y + 4` that are full in `m`, in ascending order. -/
def fullRows (m : Grid) (y : Int) : List Int := fullRowsUpTo m y 5

/-! ## Test data -/

/-- A test board with the contents of a freshly reset board: walls in columns 0 and 10 and in
row 21, spawn markers in the interior of row 1, empty elsewhere. -/
def wellBoard : Grid :=
  fun r c =>
    if r = 1 ∧ 0 < c ∧ c < 10 then 8
    else if r = 21 ∨ c = 0 ∨ c = 10 then 7
    else 9

/-- A test board: the freshly reset board with rows 5 and 6 filled with colour 3 over the
whole interior and row 7 filled with colour 2 in columns 1..4 only. -/
def twoFullRows : Grid :=
  fun r c =>
    if r = 1 ∧ 0 < c ∧ c < 10 then 8
    else if r = 21 ∨ c = 0 ∨ c = 10 then 7
    else if r = 5 ∨ r = 6 then 3
    else if r = 7 ∧ c < 5 then 2
    else 9

/-- A test board: the freshly reset board with row 4 filled with colour 3 except in column 5,
and row 5 filled with colour 2 in columns 1..8. -/
def holeInRow4 : Grid :=
  fun r c =>
    if r = 1 ∧ 0 < c ∧ c < 10 then 8
    else if r = 21 ∨ c = 0 ∨ c = 10 then 7
    else if r = 4 ∧ c ≠ 5 then 3
    else if r = 5 ∧ c < 9 then 2
    else 9

/-- A test state: a freshly initialised session whose current piece is the T piece
(type 4). -/
def freshT : TetrisApp := GameInitialize ⟨wellBoard, BLOCK 0, 0, 0, 0, 0, 0⟩ (fun _ => 4)

/-- A test board: the freshly reset board after four vertical I pieces (type 1) and one square
(type 0) were merged one column right of the spawn column: colour 0 in rows 5..20 of column
6 and colour 4 in rows 3..4 of columns 6..7.  Column 5 is free. -/
def stackBesideSpawn : Grid :=
  blockToMap (blockToMap (blockToMap (blockToMap (blockToMap wellBoard
    (BLOCK 1) 4 16) (BLOCK 1) 4 12) (BLOCK 1) 4 8) (BLOCK 1) 4 4) (BLOCK 0) 4 1

/-! ## Loop rules -/

theorem forLoop_inv {σ : Type} (body : Int → σ → σ) (P : Int → σ → Prop) :
    ∀ (n : Nat) (i : Int) (s : σ), P i s →
      (∀ k s, i ≤ k → k < i + n → P k s → P (k + 1) (body k s)) →
      P (i + n) (forLoop body i n s) := by
  intro n
  induction n with
  | zero => intro i s h _; simpa [forLoop] using h
  | succ n ih =>
    intro i s h step
    have h1 : P (i + 1) (body i s) := step i s (le_refl _) (by push_cast; omega) h
    have h2 := ih (i + 1) (body i s) h1 (fun k s hk hk2 hp =>
      step k s (by omega) (by push_cast; omega) hp)
    have e : i + ((n + 1 : Nat) : Int) = i + 1 + (n : Int) := by push_cast; ring
    rw [e]
    simpa [forLoop] using h2

theorem forRange_inv {σ : Type} (lo hi : Int) (body : Int → σ → σ) (P : Int → σ → Prop)
    (s : σ) (hle : lo ≤ hi) (h0 : P lo s)
    (step : ∀ k s, lo ≤ k → k < hi → P k s → P (k + 1) (body k s)) :
    P hi (forRange lo hi body s) := by
  have h := forLoop_inv body P (hi - lo).toNat lo s h0 (fun k s hk hk2 hp =>
    step k s hk (by rw [Int.toNat_of_nonneg (by omega)] at hk2; omega) hp)
  rw [Int.toNat_of_nonneg (by omega)] at h
  have e : lo + (hi - lo) = hi := by ring
  rw [e] at h
  exact h

theorem forDown_inv {σ : Type} (body : Int → σ → σ) (P : Int → σ → Prop) :
    ∀ (n : Nat) (s : σ), P n s →
      (∀ k s, 0 < k → k ≤ (n : Int) → P k s → P (k - 1) (body k s)) →
      P 0 (forDown body n s) := by
  intro n
  induction n with
  | zero => intro s h _; simpa [forDown] using h
  | succ n ih =>
    intro s h step
    have h1 : P n (body ((n : Int) + 1) s) := by
      have := step ((n : Int) + 1) s (by omega) (by push_cast; omega) (by simpa using h)
      simpa using this
    have h2 := ih (body ((n : Int) + 1) s) h1 (fun k s hk hk2 hp =>
      step k s hk (by push_cast; omega) hp)
    simpa [forDown] using h2

theorem anyLoop_eq_true (p : Int → Bool) :
    ∀ (n : Nat) (i : Int), anyLoop p i n = true ↔ ∃ k, i ≤ k ∧ k < i + n ∧ p k = true := by
  intro n
  induction n with
  | zero =>
    intro i
    simp only [anyLoop, Bool.false_eq_true, false_iff]
    rintro ⟨k, h1, h2, _⟩
    simp at h2
    omega
  | succ n ih =>
    intro i
    simp only [anyLoop, Bool.or_eq_true, ih]
    constructor
    · rintro (h | ⟨k, h1, h2, h3⟩)
      · exact ⟨i, le_refl _, by push_cast; omega, h⟩
      · exact ⟨k, by omega, by push_cast; omega, h3⟩
    · rintro ⟨k, h1, h2, h3⟩
      by_cases e : k = i
      · left; rw [← e]; exact h3
      · right; exact ⟨k, by omega, by push_cast at h2; omega, h3⟩

theorem anyRange_eq_true (lo hi : Int) (p : Int → Bool) :
    anyRange lo hi p = true ↔ ∃ k, lo ≤ k ∧ k < hi ∧ p k = true := by
  unfold anyRange
  rw [anyLoop_eq_true]
  constructor
  · rintro ⟨k, h1, h2, h3⟩
    exact ⟨k, h1, by omega, h3⟩
  · rintro ⟨k, h1, h2, h3⟩
    exact ⟨k, h1, by omega, h3⟩

theorem anyRange_eq_false (lo hi : Int) (p : Int → Bool) :
    anyRange lo hi p = false ↔ ∀ k, lo ≤ k → k < hi → p k = false := by
  rw [← Bool.not_eq_true, anyRange_eq_true]
  constructor
  · intro h k h1 h2
    by_contra hp
    exact h ⟨k, h1, h2, by simpa using hp⟩
  · rintro h ⟨k, h1, h2, h3⟩
    rw [h k h1 h2] at h3
    exact Bool.false_ne_true h3

/-- A loop over the columns `b + lo .. b + hi - 1` of one row `a`, whose body writes cell
`(a, b + j)` from the cell `(a', b + j)`. -/
theorem forRange_row (lo hi a a' b : Int) (g : Int → Int → Int) (body : Int → Grid → Grid)
    (m : Grid) (hle : lo ≤ hi)
    (hbody : ∀ j m r c, body j m r c = if r = a ∧ c = b + j then g j (m a' (b + j)) else m r c) :
    ∀ r c, forRange lo hi body m r c =
      if r = a ∧ lo ≤ c - b ∧ c - b < hi then g (c - b) (m a' c) else m r c := by
  have h := forRange_inv lo hi body
    (fun k m' => ∀ r c, m' r c =
      if r = a ∧ lo ≤ c - b ∧ c - b < k then g (c - b) (m a' c) else m r c) m hle
    (by
      intro r c
      have : ¬ (r = a ∧ lo ≤ c - b ∧ c - b < lo) := by omega
      simp [this])
    (by
      intro k m' hk1 hk2 ih r c
      rw [hbody]
      by_cases h1 : r = a ∧ c = b + k
      · obtain ⟨rfl, rfl⟩ := h1
        have e1 : (r = r ∧ lo ≤ b + k - b ∧ b + k - b < k + 1) := ⟨rfl, by omega, by omega⟩
        have e2 : ¬ (a' = r ∧ lo ≤ b + k - b ∧ b + k - b < k) := by omega
        have e3 : b + k - b = k := by ring
        rw [if_pos ⟨rfl, rfl⟩, if_pos e1, ih a' (b + k), if_neg e2, e3]
      · rw [if_neg h1, ih r c]
        by_cases h2 : r = a ∧ lo ≤ c - b ∧ c - b < k
        · rw [if_pos h2, if_pos ⟨h2.1, h2.2.1, by omega⟩]
        · have : ¬ (r = a ∧ lo ≤ c - b ∧ c - b < k + 1) := by
            rintro ⟨q1, q2, q3⟩
            by_cases q4 : c - b = k
            · exact h1 ⟨q1, by omega⟩
            · exact h2 ⟨q1, q2, by omega⟩
          rw [if_neg h2, if_neg this])
  exact h

/-- A loop over the rows `a + lo .. a + hi - 1`, whose body rewrites the cells of row
`a + i` that satisfy `Pc`, each from its own old value. -/
theorem forRange_rows (lo hi a : Int) (Pc : Int → Int → Prop) [∀ i c, Decidable (Pc i c)]
    (G : Int → Int → Int → Int) (body : Int → Grid → Grid) (m : Grid) (hle : lo ≤ hi)
    (hbody : ∀ i m r c, body i m r c = if r = a + i ∧ Pc i c then G i c (m r c) else m r c) :
    ∀ r c, forRange lo hi body m r c =
      if lo ≤ r - a ∧ r - a < hi ∧ Pc (r - a) c then G (r - a) c (m r c) else m r c := by
  have h := forRange_inv lo hi body
    (fun k m' => ∀ r c, m' r c =
      if lo ≤ r - a ∧ r - a < k ∧ Pc (r - a) c then G (r - a) c (m r c) else m r c) m hle
    (by
      intro r c
      have : ¬ (lo ≤ r - a ∧ r - a < lo ∧ Pc (r - a) c) := by omega
      simp [this])
    (by
      intro k m' hk1 hk2 ih r c
      rw [hbody]
      by_cases h1 : r = a + k ∧ Pc k c
      · obtain ⟨rfl, hp⟩ := h1
        have e3 : a + k - a = k := by ring
        have e1 : (lo ≤ a + k - a ∧ a + k - a < k + 1 ∧ Pc (a + k - a) c) :=
          ⟨by omega, by omega, by rw [e3]; exact hp⟩
        have e2 : ¬ (lo ≤ a + k - a ∧ a + k - a < k ∧ Pc (a + k - a) c) := by omega
        rw [if_pos ⟨rfl, hp⟩, if_pos e1, ih, if_neg e2, e3]
      · rw [if_neg h1, ih r c]
        by_cases h2 : lo ≤ r - a ∧ r - a < k ∧ Pc (r - a) c
        · rw [if_pos h2, if_pos ⟨h2.1, by omega, h2.2.2⟩]
        · have : ¬ (lo ≤ r - a ∧ r - a < k + 1 ∧ Pc (r - a) c) := by
            rintro ⟨q1, q2, q3⟩
            by_cases q4 : r - a = k
            · exact h1 ⟨by omega, by rw [← q4]; exact q3⟩
            · exact h2 ⟨q1, by omega, q3⟩
          rw [if_neg h2, if_neg this])
  exact h

/-! ## Collision test -/

theorem checkBlock_eq_true (map cblock : Grid) (x y : Int) :
    checkBlock map x y cblock = true ↔
      ∃ i j, 0 ≤ i ∧ i < 5 ∧ 0 ≤ j ∧ j < 5 ∧ InGrid (y + i) (x + j) ∧
        cblock i j < 7 ∧ map (y + i) (x + j) < 8 := by
  unfold checkBlock
  rw [anyRange_eq_true]
  constructor
  · rintro ⟨i, hi0, hi5, h⟩
    rw [anyRange_eq_true] at h
    obtain ⟨j, hj0, hj5, h⟩ := h
    simp only [Bool.and_eq_true, decide_eq_true_eq] at h
    exact ⟨i, j, hi0, hi5, hj0, hj5, ⟨by omega, by omega, by omega, by omega⟩, h.2.1, h.2.2⟩
  · rintro ⟨i, j, hi0, hi5, hj0, hj5, ⟨g1, g2, g3, g4⟩, hc, hm⟩
    refine ⟨i, hi0, hi5, ?_⟩
    rw [anyRange_eq_true]
    refine ⟨j, hj0, hj5, ?_⟩
    simp only [Bool.and_eq_true, decide_eq_true_eq]
    exact ⟨⟨⟨by omega, g2⟩, ⟨by omega, g4⟩⟩, hc, hm⟩

/-- C1: for a shape of `Empty`/colour cells and a board of cell codes, `checkBlock` is true
iff some filled shape cell lies on a board coordinate inside the grid that holds a
`Locked` or `Wall` cell; filled cells that are outside the grid or on a `SpawnMarker` or
`Empty` board cell cause no collision. -/
theorem checkBlock_iff_occupied (map cblock : Grid) (x y : Int)
    (hs : ValidShape cblock) (hb : ValidBoard map) :
    (checkBlock map x y cblock = true ↔
      ∃ i j, 0 ≤ i ∧ i < 5 ∧ 0 ≤ j ∧ j < 5 ∧ isLocked (cblock i j) ∧
        InGrid (y + i) (x + j) ∧
        (isLocked (map (y + i) (x + j)) ∨ isWall (map (y + i) (x + j)))) ∧
    ((∀ i j, 0 ≤ i → i < 5 → 0 ≤ j → j < 5 → isLocked (cblock i j) →
        ¬ InGrid (y + i) (x + j) ∨ isSpawnMarker (map (y + i) (x + j)) ∨
          isEmpty (map (y + i) (x + j))) →
      checkBlock map x y cblock = false) := by
  have key : checkBlock map x y cblock = true ↔
      ∃ i j, 0 ≤ i ∧ i < 5 ∧ 0 ≤ j ∧ j < 5 ∧ isLocked (cblock i j) ∧
        InGrid (y + i) (x + j) ∧
        (isLocked (map (y + i) (x + j)) ∨ isWall (map (y + i) (x + j))) := by
    rw [checkBlock_eq_true]
    constructor
    · rintro ⟨i, j, hi0, hi5, hj0, hj5, hg, hc, hm⟩
      refine ⟨i, j, hi0, hi5, hj0, hj5, ?_, hg, ?_⟩
      · rcases hs i hi0 hi5 j hj0 hj5 with h | h
        · unfold isEmpty at h; omega
        · exact h
      · have hv := hb (y + i) hg.1 hg.2.1 (x + j) hg.2.2.1 hg.2.2.2
        unfold isLocked isWall
        omega
    · rintro ⟨i, j, hi0, hi5, hj0, hj5, hc, hg, hm⟩
      refine ⟨i, j, hi0, hi5, hj0, hj5, hg, ?_, ?_⟩
      · unfold isLocked at hc; omega
      · unfold isLocked isWall at hm; omega
  refine ⟨key, fun h => ?_⟩
  rw [← Bool.not_eq_true, key]
  rintro ⟨i, j, hi0, hi5, hj0, hj5, hc, hg, hm⟩
  rcases h i j hi0 hi5 hj0 hj5 hc with h | h | h
  · exact h hg
  · unfold isSpawnMarker at h; unfold isLocked isWall at hm; omega
  · unfold isEmpty at h; unfold isLocked isWall at hm; omega

theorem checkBlock_iff_occupied_witness :
    ValidShape (BLOCK 1) ∧ ValidBoard wellBoard ∧
    checkBlock wellBoard 3 17 (BLOCK 1) = true ∧
    (∃ i j : Int, 0 ≤ i ∧ i < 5 ∧ 0 ≤ j ∧ j < 5 ∧ isLocked (BLOCK 1 i j) ∧
        InGrid (17 + i) (3 + j) ∧
        (isLocked (wellBoard (17 + i) (3 + j)) ∨
          isWall (wellBoard (17 + i) (3 + j)))) :=
  ⟨by decide, by decide, by decide,
    ((checkBlock_iff_occupied wellBoard (BLOCK 1) 3 17
      (by decide) (by decide)).1).1 (by decide)⟩

/-! ## Rotation -/

theorem checkBlock_congr (map s t : Grid) (x y : Int)
    (h : ∀ i j, 0 ≤ i → i < 5 → 0 ≤ j → j < 5 → s i j = t i j) :
    checkBlock map x y s = checkBlock map x y t := by
  rw [Bool.eq_iff_iff, checkBlock_eq_true, checkBlock_eq_true]
  constructor
  · rintro ⟨i, j, a1, a2, a3, a4, a5, a6, a7⟩
    exact ⟨i, j, a1, a2, a3, a4, a5, by rw [← h i j a1 a2 a3 a4]; exact a6, a7⟩
  · rintro ⟨i, j, a1, a2, a3, a4, a5, a6, a7⟩
    exact ⟨i, j, a1, a2, a3, a4, a5, by rw [h i j a1 a2 a3 a4]; exact a6, a7⟩

/-- The inner loop of the first loop nest of `blockRoll`, for the row `i` and the value
`rj` of the outer counter. -/
theorem rollFill_inner (CBlock : Grid) (i rj : Int) (rb : Grid) :
    ∀ r c, (forRange 0 5 (fun j (st2 : Grid × Int) =>
        (setCell st2.1 i j (CBlock st2.2 rj), st2.2 + 1)) (rb, 0)).1 r c =
      if r = i ∧ 0 ≤ c ∧ c < 5 then CBlock c rj else rb r c := by
  have h := forRange_inv 0 5 (fun j (st2 : Grid × Int) =>
        (setCell st2.1 i j (CBlock st2.2 rj), st2.2 + 1))
    (fun k st => st.2 = k ∧ ∀ r c, st.1 r c =
      if r = i ∧ 0 ≤ c ∧ c < k then CBlock c rj else rb r c) (rb, 0) (by omega)
    (by
      refine ⟨rfl, fun r c => ?_⟩
      have : ¬ (r = i ∧ 0 ≤ c ∧ c < 0) := by omega
      simp [this])
    (by
      rintro k ⟨m', ri⟩ hk1 hk2 ⟨h1, h2⟩
      simp only at h1 h2
      subst h1
      refine ⟨rfl, fun r c => ?_⟩
      simp only [setCell]
      by_cases e : r = i ∧ c = ri
      · rw [if_pos e, if_pos ⟨e.1, by omega, by omega⟩, e.2]
      · rw [if_neg e, h2]
        by_cases e2 : r = i ∧ 0 ≤ c ∧ c < ri
        · rw [if_pos e2, if_pos ⟨e2.1, e2.2.1, by omega⟩]
        · have : ¬ (r = i ∧ 0 ≤ c ∧ c < ri + 1) := by
            rintro ⟨q1, q2, q3⟩
            by_cases q4 : c = ri
            · exact e ⟨q1, q4⟩
            · exact e2 ⟨q1, q2, by omega⟩
          rw [if_neg e2, if_neg this])
  exact h.2

/-- The first loop nest of `blockRoll` writes `rblock[i][j] = CBlock[j][4 - i]` for all 25
cells, whatever `rblock` held before. -/
theorem rollFill_cell (CBlock rblock : Grid) (i j : Int)
    (hi0 : 0 ≤ i) (hi5 : i < 5) (hj0 : 0 ≤ j) (hj5 : j < 5) :
    rollFill CBlock rblock i j = CBlock j (4 - i) := by
  have h := forRange_inv 0 5 (fun i (st : Grid × Int) =>
    ((forRange 0 5 (fun j (st2 : Grid × Int) =>
        (setCell st2.1 i j (CBlock st2.2 st.2), st2.2 + 1)) (st.1, 0)).1, st.2 - 1))
    (fun k st => st.2 = 4 - k ∧ ∀ r c, 0 ≤ r → r < k → 0 ≤ c → c < 5 →
      st.1 r c = CBlock c (4 - r)) (rblock, 4) (by omega)
    (by
      refine ⟨by simp, fun r c h1 h2 => ?_⟩
      omega)
    (by
      rintro k ⟨m', rj⟩ hk1 hk2 ⟨h1, h2⟩
      simp only at h1 h2
      subst h1
      refine ⟨by simp only; ring, fun r c r0 r1 c0 c1 => ?_⟩
      simp only
      rw [rollFill_inner]
      by_cases e : r = k
      · rw [if_pos ⟨e, c0, c1⟩, e]
      · have : ¬ (r = k ∧ 0 ≤ c ∧ c < 5) := fun q => e q.1
        rw [if_neg this]
        exact h2 r c r0 (by omega) c0 c1)
  exact h.2 i j hi0 hi5 hj0 hj5

/-- The second loop nest of `blockRoll` copies the 25 cells of `rblock`. -/
theorem rollCopy_cell (CBlock rblock : Grid) (i j : Int)
    (hi0 : 0 ≤ i) (hi5 : i < 5) (hj0 : 0 ≤ j) (hj5 : j < 5) :
    rollCopy CBlock rblock i j = rblock i j := by
  unfold rollCopy
  rw [forRange_rows 0 5 0 (fun _ c => 0 ≤ c ∧ c < 5) (fun i c _ => rblock i c) _ _ (by omega)]
  · rw [if_pos ⟨by omega, by omega, hj0, hj5⟩]
    congr 1
    ring
  · intro i m r c
    rw [forRange_row 0 5 i i 0 (fun j _ => rblock i j) _ _ (by omega)]
    · by_cases e : r = i ∧ 0 ≤ c - 0 ∧ c - 0 < 5
      · have e2 : r = 0 + i ∧ 0 ≤ c ∧ c < 5 := by omega
        have e3 : c - 0 = c := by ring
        rw [if_pos e, if_pos e2, e3]
      · have e2 : ¬ (r = 0 + i ∧ 0 ≤ c ∧ c < 5) := by omega
        rw [if_neg e, if_neg e2]
    · intro j m r c
      simp only [setCell, zero_add]

/-- C2: when the rotated shape does not collide at `(x, y)`, `blockRoll(x, y)` returns true
and the new active shape is `CBlock'[i][j] = CBlock[j][4 - i]` on all 25 cells, for every
active shape. -/
theorem blockRoll_success (map CBlock : Grid) (x y : Int)
    (h : checkBlock map x y (fun i j => CBlock j (4 - i)) = false) :
    (blockRoll map CBlock x y).1 = true ∧
    ∀ i j, 0 ≤ i → i < 5 → 0 ≤ j → j < 5 →
      (blockRoll map CBlock x y).2 i j = CBlock j (4 - i) := by
  have hc : checkBlock map x y (rollFill CBlock (fun _ _ => 0)) = false := by
    rw [checkBlock_congr map _ (fun i j => CBlock j (4 - i)) x y
      (fun i j a b c d => rollFill_cell CBlock _ i j a b c d)]
    exact h
  unfold blockRoll
  simp only [hc, bne_iff_ne, ne_eq, Bool.false_eq_true, not_false_eq_true, if_true, true_and]
  intro i j a b c d
  rw [rollCopy_cell _ _ i j a b c d, rollFill_cell _ _ i j a b c d]

theorem blockRoll_success_witness :
    checkBlock wellBoard 3 5 (fun i j => BLOCK 1 j (4 - i)) = false ∧
    (blockRoll wellBoard (BLOCK 1) 3 5).1 = true ∧
    (blockRoll wellBoard (BLOCK 1) 3 5).2 2 4 = BLOCK 1 4 2 :=
  ⟨by decide, (blockRoll_success wellBoard (BLOCK 1) 3 5 (by decide)).1,
    (blockRoll_success wellBoard (BLOCK 1) 3 5 (by decide)).2 2 4
      (by decide) (by decide) (by decide) (by decide)⟩

/-- C3: if the rotated shape collides at `(x, y)`, `blockRoll(x, y)` returns false and
leaves `CBlock` (indeed the whole state) as it was; in every case, accepted or rejected,
`blockRoll` and the rotate command leave the anchor, the board and the score as they were. -/
theorem blockRoll_fails_in_place (g : TetrisApp) (x y : Int) :
    (checkBlock g.map x y (fun i j => g.CBlock j (4 - i)) = true →
      (g.blockRoll x y).1 = false ∧ (g.blockRoll x y).2 = g) ∧
    (checkBlock g.map g.x g.y (fun i j => g.CBlock j (4 - i)) = true →
      OnKeyboardInput_UP g = g) ∧
    ((g.blockRoll x y).2.x = g.x ∧ (g.blockRoll x y).2.y = g.y ∧
      (g.blockRoll x y).2.map = g.map ∧ (g.blockRoll x y).2.score = g.score) ∧
    ((OnKeyboardInput_UP g).x = g.x ∧ (OnKeyboardInput_UP g).y = g.y ∧
      (OnKeyboardInput_UP g).map = g.map ∧ (OnKeyboardInput_UP g).score = g.score) := by
  have key : ∀ (x y : Int),
      checkBlock g.map x y (fun i j => g.CBlock j (4 - i)) = true →
      (g.blockRoll x y).1 = false ∧ (g.blockRoll x y).2 = g := by
    intro x y h
    have hc : checkBlock g.map x y (rollFill g.CBlock (fun _ _ => 0)) = true := by
      rw [checkBlock_congr g.map _ (fun i j => g.CBlock j (4 - i)) x y
        (fun i j a b c d => rollFill_cell g.CBlock _ i j a b c d)]
      exact h
    unfold TetrisApp.blockRoll blockRoll
    simp [hc]
  refine ⟨key x y, fun h => ?_, ⟨rfl, rfl, rfl, rfl⟩, ?_⟩
  · unfold OnKeyboardInput_UP
    split
    · exact (key g.x g.y h).2
    · rfl
  · unfold OnKeyboardInput_UP
    split <;> exact ⟨rfl, rfl, rfl, rfl⟩

theorem blockRoll_fails_in_place_witness :
    checkBlock wellBoard (-1) 5 (fun i j => BLOCK 1 j (4 - i)) = true ∧
    (TetrisApp.blockRoll ⟨wellBoard, BLOCK 1, -1, 5, 1, 1, 0⟩ (-1) 5).1 = false ∧
    (TetrisApp.blockRoll ⟨wellBoard, BLOCK 1, -1, 5, 1, 1, 0⟩ (-1) 5).2
      = ⟨wellBoard, BLOCK 1, -1, 5, 1, 1, 0⟩ :=
  ⟨by decide,
    (blockRoll_fails_in_place ⟨wellBoard, BLOCK 1, -1, 5, 1, 1, 0⟩ (-1) 5).1 (by decide)⟩

/-! ## Merge -/

/-- Closed form of `blockToMap`: inside the 5 x 5 window at the anchor a cell takes the
shape value when that is not `9`, every other cell keeps its value. -/
theorem blockToMap_cell (map CBlock : Grid) (x y r c : Int) :
    blockToMap map CBlock x y r c =
      if 0 ≤ r - y ∧ r - y < 5 ∧ 0 ≤ c - x ∧ c - x < 5 ∧ CBlock (r - y) (c - x) ≠ 9
      then CBlock (r - y) (c - x) else map r c := by
  unfold blockToMap
  rw [forRange_rows 0 5 y (fun _ c => 0 ≤ c - x ∧ c - x < 5)
    (fun i c v => if CBlock i (c - x) ≠ 9 then CBlock i (c - x) else v) _ _ (by omega)]
  · by_cases e : 0 ≤ r - y ∧ r - y < 5 ∧ 0 ≤ c - x ∧ c - x < 5
    · rw [if_pos e]
      by_cases e2 : CBlock (r - y) (c - x) ≠ 9
      · rw [if_pos e2, if_pos ⟨e.1, e.2.1, e.2.2.1, e.2.2.2, e2⟩]
      · have : ¬ (0 ≤ r - y ∧ r - y < 5 ∧ 0 ≤ c - x ∧ c - x < 5 ∧
            CBlock (r - y) (c - x) ≠ 9) := fun q => e2 q.2.2.2.2
        rw [if_neg e2, if_neg this]
    · have : ¬ (0 ≤ r - y ∧ r - y < 5 ∧ 0 ≤ c - x ∧ c - x < 5 ∧
          CBlock (r - y) (c - x) ≠ 9) := fun q => e ⟨q.1, q.2.1, q.2.2.1, q.2.2.2.1⟩
      rw [if_neg e, if_neg this]
  · intro i m r c
    rw [forRange_row 0 5 (y + i) (y + i) x
      (fun j v => if CBlock i j ≠ 9 then CBlock i j else v) _ _ (by omega)]
    · by_cases e : r = y + i ∧ 0 ≤ c - x ∧ c - x < 5
      · rw [if_pos e, if_pos e, e.1]
      · rw [if_neg e, if_neg e]
    · intro j m r c
      by_cases e : CBlock i j ≠ 9
      · simp only [e, setCell, ne_eq, not_false_eq_true, if_true]
      · simp only [e, if_false]
        split
        · next q => rw [q.1, q.2]
        · rfl

/-- C4: `blockToMap(x, y)` for a shape whose non-`Empty` cells all map into the grid: the
board cell at `(y + i, x + j)` becomes `CBlock[i][j]` for each non-`Empty` shape cell, every
other board cell keeps its value, and the shape is not changed. -/
theorem blockToMap_spec (g : TetrisApp) (x y : Int) (_hin : FitsGrid g.CBlock x y) :
    (∀ i j, 0 ≤ i → i < 5 → 0 ≤ j → j < 5 → ¬ isEmpty (g.CBlock i j) →
      (g.blockToMap x y).map (y + i) (x + j) = g.CBlock i j) ∧
    (∀ r c, (¬ ∃ i j, 0 ≤ i ∧ i < 5 ∧ 0 ≤ j ∧ j < 5 ∧ ¬ isEmpty (g.CBlock i j) ∧
        r = y + i ∧ c = x + j) → (g.blockToMap x y).map r c = g.map r c) ∧
    (g.blockToMap x y).CBlock = g.CBlock := by
  refine ⟨fun i j a b c d e => ?_, fun r c h => ?_, rfl⟩
  · show blockToMap g.map g.CBlock x y (y + i) (x + j) = _
    rw [blockToMap_cell]
    have e1 : y + i - y = i := by ring
    have e2 : x + j - x = j := by ring
    rw [e1, e2, if_pos ⟨a, b, c, d, e⟩]
  · show blockToMap g.map g.CBlock x y r c = _
    rw [blockToMap_cell, if_neg]
    rintro ⟨a, b, c1, d, e⟩
    exact h ⟨r - y, c - x, a, b, c1, d, e, by ring, by ring⟩

theorem blockToMap_spec_witness :
    FitsGrid (BLOCK 1) 3 16 ∧
    (TetrisApp.blockToMap ⟨wellBoard, BLOCK 1, 3, 16, 1, 1, 0⟩ 3 16).map (16 + 4) (3 + 2)
      = BLOCK 1 4 2 :=
  ⟨by decide,
    (blockToMap_spec ⟨wellBoard, BLOCK 1, 3, 16, 1, 1, 0⟩ 3 16 (by decide)).1 4 2
      (by decide) (by decide) (by decide) (by decide) (by decide)⟩

/-! ## Game over test -/

/-- C8: `checkOver()` is true iff some interior cell of row 1 is not `SpawnMarker`; so it
is false on a board whose row 1 interior is all `SpawnMarker`, and true after `blockToMap` of
a piece with a colour cell that lands on an interior cell of row 1. -/
theorem checkOver_spec (g : TetrisApp) :
    (checkOver g.map = true ↔ ∃ j, 1 ≤ j ∧ j ≤ 9 ∧ ¬ isSpawnMarker (g.map 1 j)) ∧
    ((∀ j, 1 ≤ j → j ≤ 9 → isSpawnMarker (g.map 1 j)) → checkOver g.map = false) ∧
    (∀ x y i j, 0 ≤ i → i < 5 → 0 ≤ j → j < 5 → isLocked (g.CBlock i j) →
      y + i = 1 → 1 ≤ x + j → x + j ≤ 9 → checkOver (g.blockToMap x y).map = true) := by
  have key : ∀ m : Grid, checkOver m = true ↔ ∃ j, 1 ≤ j ∧ j ≤ 9 ∧ ¬ isSpawnMarker (m 1 j) := by
    intro m
    unfold checkOver isSpawnMarker
    rw [anyRange_eq_true]
    simp only [WIDTH]
    constructor
    · rintro ⟨j, h1, h2, h3⟩
      exact ⟨j, h1, by omega, by simpa using h3⟩
    · rintro ⟨j, h1, h2, h3⟩
      exact ⟨j, h1, by omega, by simpa using h3⟩
  refine ⟨key g.map, fun h => ?_, fun x y i j a b c d e hy hx1 hx2 => ?_⟩
  · rw [← Bool.not_eq_true, key]
    rintro ⟨j, h1, h2, h3⟩
    exact h3 (h j h1 h2)
  · rw [key]
    refine ⟨x + j, hx1, hx2, ?_⟩
    have hne : g.CBlock i j ≠ 9 := by unfold isLocked at e; omega
    have hcell : (g.blockToMap x y).map 1 (x + j) = g.CBlock i j := by
      show blockToMap g.map g.CBlock x y 1 (x + j) = _
      rw [blockToMap_cell]
      have e1 : (1 : Int) - y = i := by omega
      have e2 : x + j - x = j := by ring
      rw [e1, e2, if_pos ⟨a, b, c, d, hne⟩]
    rw [hcell]
    unfold isSpawnMarker
    unfold isLocked at e
    omega

theorem checkOver_spec_witness :
    (∀ j : Int, 1 ≤ j → j ≤ 9 → isSpawnMarker (wellBoard 1 j)) ∧
    checkOver wellBoard = false ∧
    isLocked (BLOCK 1 2 2) ∧
    checkOver (TetrisApp.blockToMap ⟨wellBoard, BLOCK 1, 3, -1, 1, 1, 0⟩ 3 (-1)).map = true :=
  ⟨by decide, (checkOver_spec ⟨wellBoard, BLOCK 1, 3, -1, 1, 1, 0⟩).2.1 (by decide),
    by decide,
    (checkOver_spec ⟨wellBoard, BLOCK 1, 3, -1, 1, 1, 0⟩).2.2 3 (-1) 2 2
      (by decide) (by decide) (by decide) (by decide) (by decide) (by decide) (by decide)
      (by decide)⟩

/-! ## Move commands -/

/-- C9: each of the commands `MoveRight`, `MoveLeft`, `SoftDropStep` leaves the anchor as it
was when `checkBlock` is true at the shifted anchor, moves it by exactly one cell in the
commanded direction when `checkBlock` is false there, and never changes the active shape, the
board or the score. -/
theorem move_commands_spec (g : TetrisApp) :
    (checkBlock g.map (g.x + 1) g.y g.CBlock = true → OnKeyboardInput_RIGHT g = g) ∧
    (checkBlock g.map (g.x - 1) g.y g.CBlock = true → OnKeyboardInput_LEFT g = g) ∧
    (checkBlock g.map g.x (g.y + 1) g.CBlock = true → OnKeyboardInput_DOWN g = g) ∧
    (checkBlock g.map (g.x + 1) g.y g.CBlock = false →
      (OnKeyboardInput_RIGHT g).x = g.x + 1 ∧ (OnKeyboardInput_RIGHT g).y = g.y) ∧
    (checkBlock g.map (g.x - 1) g.y g.CBlock = false →
      (OnKeyboardInput_LEFT g).x = g.x - 1 ∧ (OnKeyboardInput_LEFT g).y = g.y) ∧
    (checkBlock g.map g.x (g.y + 1) g.CBlock = false →
      (OnKeyboardInput_DOWN g).x = g.x ∧ (OnKeyboardInput_DOWN g).y = g.y + 1) ∧
    ((OnKeyboardInput_RIGHT g).CBlock = g.CBlock ∧ (OnKeyboardInput_RIGHT g).map = g.map ∧
      (OnKeyboardInput_RIGHT g).score = g.score) ∧
    ((OnKeyboardInput_LEFT g).CBlock = g.CBlock ∧ (OnKeyboardInput_LEFT g).map = g.map ∧
      (OnKeyboardInput_LEFT g).score = g.score) ∧
    ((OnKeyboardInput_DOWN g).CBlock = g.CBlock ∧ (OnKeyboardInput_DOWN g).map = g.map ∧
      (OnKeyboardInput_DOWN g).score = g.score) := by
  refine ⟨fun h => ?_, fun h => ?_, fun h => ?_, fun h => ?_, fun h => ?_, fun h => ?_,
    ?_, ?_, ?_⟩
  · simp [OnKeyboardInput_RIGHT, h]
  · simp [OnKeyboardInput_LEFT, h]
  · simp [OnKeyboardInput_DOWN, h]
  · simp [OnKeyboardInput_RIGHT, h]
  · simp [OnKeyboardInput_LEFT, h]
  · simp [OnKeyboardInput_DOWN, h]
  · unfold OnKeyboardInput_RIGHT; split <;> exact ⟨rfl, rfl, rfl⟩
  · unfold OnKeyboardInput_LEFT; split <;> exact ⟨rfl, rfl, rfl⟩
  · unfold OnKeyboardInput_DOWN; split <;> exact ⟨rfl, rfl, rfl⟩

/-- The scenario of the specification for C9: the vertical I piece stands in column 1, the
wall of column 0 is immediately left of its filled cells, and `MoveLeft` leaves the anchor
column as it was; `MoveRight` from the same state moves it by one. -/
theorem move_commands_spec_witness :
    checkBlock wellBoard (-1 - 1) 5 (BLOCK 1) = true ∧
    (OnKeyboardInput_LEFT ⟨wellBoard, BLOCK 1, -1, 5, 1, 1, 0⟩).x = -1 ∧
    checkBlock wellBoard (-1 + 1) 5 (BLOCK 1) = false ∧
    (OnKeyboardInput_RIGHT ⟨wellBoard, BLOCK 1, -1, 5, 1, 1, 0⟩).x = -1 + 1 :=
  ⟨by decide,
    congrArg TetrisApp.x
      ((move_commands_spec ⟨wellBoard, BLOCK 1, -1, 5, 1, 1, 0⟩).2.1 (by decide)),
    by decide,
    ((move_commands_spec ⟨wellBoard, BLOCK 1, -1, 5, 1, 1, 0⟩).2.2.2.1 (by decide)).1⟩

/-! ## Row removal -/

theorem removeLine_shift (map : Grid) (n : Nat) :
    ∀ r c, forDown (fun i map =>
        forRange 1 (WIDTH - 1) (fun j map => setCell map i j (map (i - 1) j)) map) n map r c
      = shiftedRows map n r c := by
  have h := forDown_inv (fun i map =>
        forRange 1 (WIDTH - 1) (fun j map => setCell map i j (map (i - 1) j)) map)
    (fun k m' => ∀ r c, m' r c =
      if k < r ∧ r ≤ (n : Int) ∧ 1 ≤ c ∧ c < 10 then map (r - 1) c else map r c) n map
    (by
      intro r c
      have : ¬ ((n : Int) < r ∧ r ≤ (n : Int) ∧ 1 ≤ c ∧ c < 10) := by omega
      rw [if_neg this])
    (by
      intro k m' hk1 hk2 ih r c
      simp only
      rw [forRange_row 1 (WIDTH - 1) k (k - 1) 0 (fun _ v => v) _ _ (by decide)]
      · simp only [WIDTH, sub_zero]
        by_cases e : r = k ∧ 1 ≤ c ∧ c < 11 - 1
        · have e1 : ¬ (k < k - 1 ∧ k - 1 ≤ (n : Int) ∧ 1 ≤ c ∧ c < 10) := by omega
          have e2 : k - 1 < r ∧ r ≤ (n : Int) ∧ 1 ≤ c ∧ c < 10 := by omega
          rw [if_pos e, ih, if_neg e1, if_pos e2, e.1]
        · rw [if_neg e, ih]
          by_cases e2 : k < r ∧ r ≤ (n : Int) ∧ 1 ≤ c ∧ c < 10
          · rw [if_pos e2, if_pos (by omega)]
          · rw [if_neg e2, if_neg (by omega)]
      · intro j m r c
        simp only [setCell, zero_add])
  intro r c
  rw [h r c]
  unfold shiftedRows
  by_cases e : 0 < r ∧ r ≤ (n : Int) ∧ 1 ≤ c ∧ c < 10
  · rw [if_pos e, if_pos (by omega)]
  · rw [if_neg e, if_neg (by omega)]

theorem removeLine_fix2 (m : Grid) (r c : Int) :
    forRange 1 (WIDTH - 1) (fun j map => if map 2 j = 8 then setCell map 2 j 9 else map) m r c
      = if r = 2 ∧ 1 ≤ c ∧ c < 10 then (if m 2 c = 8 then 9 else m 2 c) else m r c := by
  rw [forRange_row 1 (WIDTH - 1) 2 2 0 (fun _ v => if v = 8 then 9 else v) _ _ (by decide)]
  · simp only [WIDTH, sub_zero]
    split_ifs <;> first | rfl | omega
  · intro j m r c
    simp only [zero_add]
    by_cases q : m 2 j = 8
    · simp [q, setCell]
    · simp only [q, if_false]
      split
      · next h => rw [h.1, h.2]
      · rfl

theorem removeLine_fix1 (m : Grid) (r c : Int) :
    forRange 1 (WIDTH - 1) (fun j map => if map 1 j = 9 then setCell map 1 j 8 else map) m r c
      = if r = 1 ∧ 1 ≤ c ∧ c < 10 then (if m 1 c = 9 then 8 else m 1 c) else m r c := by
  rw [forRange_row 1 (WIDTH - 1) 1 1 0 (fun _ v => if v = 9 then 8 else v) _ _ (by decide)]
  · simp only [WIDTH, sub_zero]
    split_ifs <;> first | rfl | omega
  · intro j m r c
    simp only [zero_add]
    by_cases q : m 1 j = 9
    · simp [q, setCell]
    · simp only [q, if_false]
      split
      · next h => rw [h.1, h.2]
      · rfl

theorem removeLine_clear0 (m : Grid) (r c : Int) :
    forRange 1 (WIDTH - 1) (fun j map => setCell map 0 j 9) m r c
      = if r = 0 ∧ 1 ≤ c ∧ c < 10 then 9 else m r c := by
  rw [forRange_row 1 (WIDTH - 1) 0 0 0 (fun _ _ => 9) _ _ (by decide)]
  · simp only [WIDTH, sub_zero]
    by_cases e : r = 0 ∧ 1 ≤ c ∧ c < 11 - 1
    · rw [if_pos e, if_pos (by omega)]
    · rw [if_neg e, if_neg (by omega)]
  · intro j m r c
    simp only [setCell, zero_add]

/-- Closed form of `removeLine(i)` for `i >= 0`. -/
theorem removeLine_cell (map : Grid) (i : Int) (hi : 0 ≤ i) (r c : Int) :
    removeLine map i r c =
      if r = 0 ∧ 1 ≤ c ∧ c < 10 then 9
      else if r = 1 ∧ 1 ≤ c ∧ c < 10 then
        (if shiftedRows map i 1 c = 9 then 8 else shiftedRows map i 1 c)
      else if r = 2 ∧ 1 ≤ c ∧ c < 10 then
        (if shiftedRows map i 2 c = 8 then 9 else shiftedRows map i 2 c)
      else shiftedRows map i r c := by
  have hfun : (forDown (fun i map =>
        forRange 1 (WIDTH - 1) (fun j map => setCell map i j (map (i - 1) j)) map)
      i.toNat map) = shiftedRows map i := by
    funext r c
    rw [removeLine_shift, Int.toNat_of_nonneg hi]
  unfold removeLine
  simp only [hfun, removeLine_clear0, removeLine_fix1, removeLine_fix2]
  split_ifs <;> first | rfl | omega

/-- C6: `removeLine(r)` for `1 <= r <= 21`: in the interior columns every row `k` with
`3 <= k <= r` holds what row `k - 1` held, and row 0 is `Empty`; every row below `max(r, 2)`
is unchanged; columns 0 and 10 are unchanged in every row. -/
theorem removeLine_spec (map : Grid) (r : Int) (h1 : 1 ≤ r) (_h21 : r ≤ 21) :
    (∀ j, 1 ≤ j → j ≤ 9 → ∀ k, 3 ≤ k → k ≤ r → removeLine map r k j = map (k - 1) j) ∧
    (∀ j, 1 ≤ j → j ≤ 9 → isEmpty (removeLine map r 0 j)) ∧
    (∀ k c, max r 2 < k → removeLine map r k c = map k c) ∧
    (∀ k, removeLine map r k 0 = map k 0 ∧ removeLine map r k 10 = map k 10) := by
  have hr : 0 ≤ r := by omega
  refine ⟨fun j j1 j9 k k3 kr => ?_, fun j j1 j9 => ?_, fun k c hk => ?_, fun k => ⟨?_, ?_⟩⟩
  · rw [removeLine_cell map r hr]
    unfold shiftedRows
    rw [if_neg (by omega), if_neg (by omega), if_neg (by omega), if_pos (by omega)]
  · rw [removeLine_cell map r hr, if_pos (by omega)]
    rfl
  · have hk2 : r < k ∧ 2 < k := by
      rcases le_total r 2 with q | q
      · rw [max_eq_right q] at hk; omega
      · rw [max_eq_left q] at hk; omega
    rw [removeLine_cell map r hr]
    unfold shiftedRows
    rw [if_neg (by omega), if_neg (by omega), if_neg (by omega), if_neg (by omega)]
  · rw [removeLine_cell map r hr]
    unfold shiftedRows
    rw [if_neg (by omega), if_neg (by omega), if_neg (by omega), if_neg (by omega)]
  · rw [removeLine_cell map r hr]
    unfold shiftedRows
    rw [if_neg (by omega), if_neg (by omega), if_neg (by omega), if_neg (by omega)]

theorem removeLine_spec_witness :
    (1 : Int) ≤ 6 ∧ (6 : Int) ≤ 21 ∧ removeLine twoFullRows 6 6 4 = twoFullRows (6 - 1) 4 ∧
    removeLine twoFullRows 6 8 4 = twoFullRows 8 4 :=
  ⟨by decide, by decide,
    (removeLine_spec twoFullRows 6 (by decide) (by decide)).1 4 (by decide) (by decide) 6
      (by decide) (by decide),
    (removeLine_spec twoFullRows 6 (by decide) (by decide)).2.2.1 8 4 (by decide)⟩

/-- C7: on a board whose row 0 interior is all `Empty` and that has `SpawnMarker` in row 1
only, `removeLine(r)` with `1 <= r <= 20` leaves the interior of row 1 all `SpawnMarker`, the
interior of row 0 all `Empty`, and no `SpawnMarker` in any other row. -/
theorem removeLine_restores_spawn_row (map : Grid) (r : Int) (h1 : 1 ≤ r) (_h20 : r ≤ 20)
    (h0 : Row0Empty map) (hm : MarkersOnlyInRow1 map) :
    Row1Markers (removeLine map r) ∧ Row0Empty (removeLine map r) ∧
      MarkersOnlyInRow1 (removeLine map r) := by
  have hr : 0 ≤ r := by omega
  refine ⟨fun j j1 j9 => ?_, fun j j1 j9 => ?_, fun k k0 k22 c c0 c11 hk => ?_⟩
  · have e := h0 j j1 j9
    unfold isEmpty at e
    unfold isSpawnMarker
    have hs : shiftedRows map r 1 j = 9 := by
      unfold shiftedRows
      rw [if_pos (by omega)]
      simpa using e
    rw [removeLine_cell map r hr, if_neg (by omega), if_pos (by omega), hs]
    rfl
  · unfold isEmpty
    rw [removeLine_cell map r hr, if_pos (by omega)]
  · unfold isSpawnMarker at hk
    rw [removeLine_cell map r hr] at hk
    by_contra hne
    have hrow : ∀ k', 0 ≤ k' → k' < HEIGHT → k' ≠ 1 → map k' c ≠ 8 := by
      intro k' a b d q
      exact d (hm k' a b c c0 c11 q)
    simp only [HEIGHT, WIDTH] at k22 c11 hrow
    unfold shiftedRows at hk
    split_ifs at hk with q1 q2 q3 q4 q5 q6 q7
    all_goals first
      | omega
      | exact hrow k k0 k22 hne hk
      | exact hrow (k - 1) (by omega) (by omega) (by omega) hk

theorem removeLine_restores_spawn_row_witness :
    (1 : Int) ≤ 5 ∧ (5 : Int) ≤ 20 ∧ Row0Empty twoFullRows ∧ MarkersOnlyInRow1 twoFullRows ∧
    Row1Markers (removeLine twoFullRows 5) ∧ Row0Empty (removeLine twoFullRows 5) ∧
      MarkersOnlyInRow1 (removeLine twoFullRows 5) :=
  ⟨by decide, by decide, by decide, by decide,
    removeLine_restores_spawn_row twoFullRows 5 (by decide) (by decide) (by decide)
      (by decide)⟩

/-! ## Line clearing -/

theorem lineFlag_iff (m : Grid) (r : Int) :
    lineFlag m r = true ↔ ∀ j, 1 ≤ j → j < 10 → m r j ≤ 6 := by
  unfold lineFlag
  rw [Bool.not_eq_true', anyRange_eq_false]
  simp only [WIDTH]
  constructor
  · intro h j j1 j10
    have := h j j1 (by omega)
    simpa using this
  · intro h j j1 j10
    have := h j j1 (by omega)
    simpa using this

/-- Removing row `r` does not change whether a row below it passes the test of `checkLine`. -/
theorem removeLine_lineFlag (m : Grid) (r r' : Int) (hr : 0 ≤ r) (hlt : r < r') :
    lineFlag (removeLine m r) r' = lineFlag m r' := by
  rw [Bool.eq_iff_iff, lineFlag_iff, lineFlag_iff]
  have cell : ∀ j, 1 ≤ j → j < 10 → (removeLine m r r' j ≤ 6 ↔ m r' j ≤ 6) := by
    intro j j1 j10
    rw [removeLine_cell m r hr]
    unfold shiftedRows
    by_cases e1 : r' = 1
    · subst e1
      split_ifs <;> omega
    · by_cases e2 : r' = 2
      · subst e2
        split_ifs <;> omega
      · split_ifs <;> omega
  constructor
  · intro h j j1 j10
    exact (cell j j1 j10).1 (h j j1 j10)
  · intro h j j1 j10
    exact (cell j j1 j10).2 (h j j1 j10)

theorem lineFlag_iff_fullRow (m : Grid) (r : Int) (hv : ValidBoard m)
    (h0 : 0 ≤ r) (h21 : r ≤ 21) : lineFlag m r = true ↔ fullRow m r := by
  rw [lineFlag_iff]
  unfold fullRow isLocked
  constructor
  · intro h j j1 j10
    have := hv r h0 (by simp only [HEIGHT]; omega) j (by omega) (by simp only [WIDTH]; omega)
    exact ⟨this.1, h j j1 j10⟩
  · intro h j j1 j10
    exact (h j j1 j10).2

theorem fullRowsUpTo_succ (m : Grid) (y : Int) (n : Nat) :
    fullRowsUpTo m y (n + 1) =
      fullRowsUpTo m y n ++ (if fullRow m (y + n) then [y + (n : Int)] else []) := by
  unfold fullRowsUpTo
  rw [List.range_succ, List.map_append, List.filter_append]
  congr 1
  by_cases h : fullRow m (y + n) <;> simp [h]

/-- The state of the loop of `checkLine` after the rows `y .. y + k - 1`. -/
theorem checkLine_loop (map : Grid) (y score : Int) (hv : ValidBoard map)
    (hy0 : 0 ≤ y) (hy : y + 4 ≤ 21) (n : Nat) (hn : n ≤ 5) :
    forLoop (fun i (st : Grid × Int) =>
        if lineFlag st.1 (y + i) = true then (removeLine st.1 (y + i), st.2 + 10) else st)
      0 n (map, score) =
    ((fullRowsUpTo map y n).foldl removeLine map,
      score + 10 * ((fullRowsUpTo map y n).length : Int)) := by
  have h := forLoop_inv (fun i (st : Grid × Int) =>
        if lineFlag st.1 (y + i) = true then (removeLine st.1 (y + i), st.2 + 10) else st)
    (fun k st => st = ((fullRowsUpTo map y k.toNat).foldl removeLine map,
        score + 10 * ((fullRowsUpTo map y k.toNat).length : Int)) ∧
      ∀ r', y + k ≤ r' → lineFlag st.1 r' = lineFlag map r') n 0 (map, score)
    (by
      refine ⟨?_, fun r' _ => rfl⟩
      simp [fullRowsUpTo])
    (by
      rintro k ⟨m', sc⟩ hk0 hk5 ⟨h1, h2⟩
      simp only at h2
      have hk : ((k + 1).toNat) = k.toNat + 1 := by omega
      have hkc : ((k.toNat : Nat) : Int) = k := Int.toNat_of_nonneg hk0
      have hfl : lineFlag m' (y + k) = lineFlag map (y + k) := h2 (y + k) (le_refl _)
      have hfull : lineFlag map (y + k) = true ↔ fullRow map (y + k) :=
        lineFlag_iff_fullRow map (y + k) hv (by omega) (by omega)
      rw [hk, fullRowsUpTo_succ, hkc]
      simp only [Prod.mk.injEq] at h1
      by_cases hf : fullRow map (y + k)
      · have hflag : lineFlag m' (y + k) = true := by rw [hfl]; exact hfull.2 hf
        simp only [hflag, if_true, hf]
        refine ⟨?_, fun r' hr' => ?_⟩
        · rw [List.foldl_append, List.length_append, ← h1.1, h1.2]
          simp only [List.foldl_cons, List.foldl_nil, List.length_singleton, Prod.mk.injEq,
            true_and]
          push_cast
          ring
        · rw [removeLine_lineFlag m' (y + k) r' (by omega) (by omega)]
          exact h2 r' (by omega)
      · have hflag : ¬ lineFlag m' (y + k) = true := by
          rw [hfl]; exact fun q => hf (hfull.1 q)
        simp only [hflag, hf, Bool.false_eq_true, if_false]
        refine ⟨?_, fun r' hr' => h2 r' (by omega)⟩
        rw [List.append_nil, ← h1.1, ← h1.2])
  have h' := h.1
  simp only [zero_add, Int.toNat_ofNat] at h'
  exact h'

/-- C5: `checkLine(y, &score)` on a board of cell codes with `0 <= y` and `y + 4 <= 21`: the
score grows by 10 for each of the rows `y .. y + 4` whose interior was all `Locked` before
the call, exactly these rows are removed (`removeLine` is applied to each of them, in
ascending order, and to no other row), and the score does not decrease.  With rows 5 and 6
full, rows 7, 8, 9 not full and `y = 5` this is two removals and `score + 20`. -/
theorem checkLine_spec (map : Grid) (y score : Int) (hv : ValidBoard map)
    (hy0 : 0 ≤ y) (hy : y + 4 ≤ 21) :
    (checkLine map y score).2 = score + 10 * ((fullRows map y).length : Int) ∧
    (checkLine map y score).1 = (fullRows map y).foldl removeLine map ∧
    score ≤ (checkLine map y score).2 ∧
    (y = 5 → fullRow map 5 → fullRow map 6 → ¬ fullRow map 7 → ¬ fullRow map 8 →
      ¬ fullRow map 9 →
      (fullRows map y).length = 2 ∧ (checkLine map y score).2 = score + 20 ∧
      (checkLine map y score).1 = removeLine (removeLine map 5) 6) := by
  have h : checkLine map y score = ((fullRows map y).foldl removeLine map,
      score + 10 * ((fullRows map y).length : Int)) := by
    unfold checkLine forRange fullRows
    exact checkLine_loop map y score hv hy0 hy 5 (le_refl _)
  rw [h]
  refine ⟨rfl, rfl, by simp only; omega, fun e f5 f6 f7 f8 f9 => ?_⟩
  subst e
  have hl : fullRows map 5 = [5, 6] := by
    simp [fullRows, fullRowsUpTo, List.range_succ, List.filter, f5, f6, f7, f8, f9]
  rw [hl]
  simp

theorem checkLine_spec_witness :
    ValidBoard twoFullRows ∧ (0 : Int) ≤ 5 ∧ (5 : Int) + 4 ≤ 21 ∧
    fullRow twoFullRows 5 ∧ fullRow twoFullRows 6 ∧ ¬ fullRow twoFullRows 7 ∧
    ¬ fullRow twoFullRows 8 ∧ ¬ fullRow twoFullRows 9 ∧
    (fullRows twoFullRows 5).length = 2 ∧ (checkLine twoFullRows 5 0).2 = 0 + 20 ∧
    (checkLine twoFullRows 5 0).1 = removeLine (removeLine twoFullRows 5) 6 :=
  ⟨by decide, by decide, by decide, by decide, by decide, by decide, by decide, by decide,
    (checkLine_spec twoFullRows 5 0 (by decide) (by decide) (by decide)).2.2.2 rfl
      (by decide) (by decide) (by decide) (by decide) (by decide)⟩

/-! ## Hard drop -/

/-- What the loop of the hard drop has done when it stops. -/
theorem hardDropLoop_some (fuel : Nat) :
    ∀ g g', hardDropLoop fuel g = some g' →
      g' = { g with y := g'.y } ∧ g.y ≤ g'.y ∧
      checkBlock g.map g.x (g'.y + 1) g.CBlock = true ∧
      ∀ y', g.y < y' → y' ≤ g'.y → checkBlock g.map g.x y' g.CBlock = false := by
  induction fuel with
  | zero => intro g g' h; simp [hardDropLoop] at h
  | succ n ih =>
    intro g g' h
    unfold hardDropLoop at h
    by_cases hc : checkBlock g.map g.x (g.y + 1) g.CBlock = true
    · simp only [hc, Bool.not_true, Bool.false_eq_true, if_false, Option.some.injEq] at h
      subst h
      exact ⟨rfl, le_refl _, hc, fun y' h1 h2 => by omega⟩
    · have hc' : checkBlock g.map g.x (g.y + 1) g.CBlock = false := by simpa using hc
      simp only [hc', Bool.not_false, if_true] at h
      obtain ⟨e1, e2, e3, e4⟩ := ih _ g' h
      simp only at e1 e2 e3 e4
      refine ⟨e1, by omega, e3, fun y' h1 h2 => ?_⟩
      by_cases q : y' = g.y + 1
      · rw [q]; exact hc'
      · exact e4 y' (by omega) h2

/-- The loop of the hard drop stops above the floor: with a colour cell `(i, j)` of the shape
over a grid column and row 21 all `Wall`, `20 - (y + i)` increments at most. -/
theorem hardDropLoop_terminates (i j : Int) (hi0 : 0 ≤ i) (hi5 : i < 5) (hj0 : 0 ≤ j)
    (hj5 : j < 5) (n : Nat) :
    ∀ g : TetrisApp, (20 - (g.y + i)).toNat = n → g.y + i ≤ 20 → isLocked (g.CBlock i j) →
      0 ≤ g.x + j → g.x + j < WIDTH → (∀ c, 0 ≤ c → c < WIDTH → isWall (g.map 21 c)) →
      ∃ g', hardDropLoop (n + 1) g = some g' ∧ g'.y + i ≤ 20 := by
  induction n with
  | zero =>
    intro g hn hy hc hx0 hx1 hfloor
    have hcb : checkBlock g.map g.x (g.y + 1) g.CBlock = true := by
      rw [checkBlock_eq_true]
      have e : g.y + 1 + i = 21 := by omega
      have hw := hfloor (g.x + j) hx0 hx1
      unfold isWall at hw
      unfold isLocked at hc
      refine ⟨i, j, hi0, hi5, hj0, hj5, ⟨by omega, by simp only [HEIGHT]; omega, hx0, hx1⟩,
        by omega, ?_⟩
      rw [e, hw]
      decide
    exact ⟨g, by simp [hardDropLoop, hcb], hy⟩
  | succ n ih =>
    intro g hn hy hc hx0 hx1 hfloor
    by_cases hcb : checkBlock g.map g.x (g.y + 1) g.CBlock = true
    · exact ⟨g, by simp [hardDropLoop, hcb], hy⟩
    · have hcb' : checkBlock g.map g.x (g.y + 1) g.CBlock = false := by simpa using hcb
      obtain ⟨g', h1, h2⟩ := ih { g with y := g.y + 1 } (by simp only; omega)
        (by simp only; omega) hc hx0 hx1 hfloor
      refine ⟨g', ?_, h2⟩
      rw [hardDropLoop]
      simp only [hcb', Bool.not_false, if_true]
      exact h1

/-- C10: when the loop of the hard drop, started at anchor `(x, y0)`, stops at row `yf`, then
`yf >= y0`, `checkBlock(x, yf + 1, shape)` is true, `checkBlock(x, y', shape)` is false for
every `y0 < y' <= yf`, column, shape, board and score are as before, and the same command
calls `BlockArrived` at `(x, yf)`, which merges the piece there (the final board is the line
cleared merge when the merge does not end the game).  The loop does stop when the shape has
a colour cell over a grid column, not below row 20, and row 21 is all `Wall`. -/
theorem hardDrop_spec (g : TetrisApp) (rnd : Nat → Nat) :
    (∀ fuel g', hardDropLoop fuel g = some g' →
      g'.x = g.x ∧ g'.CBlock = g.CBlock ∧ g'.map = g.map ∧ g'.score = g.score ∧
      g.y ≤ g'.y ∧
      checkBlock g.map g.x (g'.y + 1) g.CBlock = true ∧
      (∀ y', g.y < y' → y' ≤ g'.y → checkBlock g.map g.x y' g.CBlock = false) ∧
      OnKeyboardInput_SPACE fuel g rnd = some (BlockArrived g' rnd) ∧
      (checkOver (blockToMap g.map g.CBlock g.x g'.y) = false →
        (BlockArrived g' rnd).map =
          (checkLine (blockToMap g.map g.CBlock g.x g'.y) g'.y g.score).1)) ∧
    (∀ i j, 0 ≤ i → i < 5 → 0 ≤ j → j < 5 → isLocked (g.CBlock i j) →
      0 ≤ g.x + j → g.x + j < WIDTH → g.y + i ≤ 20 →
      (∀ c, 0 ≤ c → c < WIDTH → isWall (g.map 21 c)) →
      ∃ fuel g', hardDropLoop fuel g = some g') := by
  refine ⟨fun fuel g' h => ?_, fun i j hi0 hi5 hj0 hj5 hc hx0 hx1 hy hfloor => ?_⟩
  · obtain ⟨e1, e2, e3, e4⟩ := hardDropLoop_some fuel g g' h
    have ex : g'.x = g.x := by rw [e1]
    have ec : g'.CBlock = g.CBlock := by rw [e1]
    have em : g'.map = g.map := by rw [e1]
    have es : g'.score = g.score := by rw [e1]
    refine ⟨ex, ec, em, es, e2, e3, e4, by simp [OnKeyboardInput_SPACE, h], fun hov => ?_⟩
    simp only [BlockArrived, TetrisApp.blockToMap, TetrisApp.checkLine, em, ec, ex, es, hov,
      Bool.false_eq_true, if_false]
  · obtain ⟨g', h1, _⟩ := hardDropLoop_terminates i j hi0 hi5 hj0 hj5 _ g rfl hy hc hx0 hx1
      hfloor
    exact ⟨_, g', h1⟩

/-- The hard drop of the vertical I piece from the spawn anchor on the freshly reset board:
the loop stops at row 16. -/
theorem hardDrop_spec_witness :
    hardDropLoop 30 ⟨wellBoard, BLOCK 1, 3, -1, 1, 1, 0⟩
      = some ⟨wellBoard, BLOCK 1, 3, 16, 1, 1, 0⟩ ∧
    checkBlock wellBoard 3 (16 + 1) (BLOCK 1) = true ∧
    (∀ c : Int, 0 ≤ c → c < WIDTH → isWall (wellBoard 21 c)) ∧
    (∃ fuel g', hardDropLoop fuel ⟨wellBoard, BLOCK 1, 3, -1, 1, 1, 0⟩ = some g') :=
  ⟨by rfl,
    ((hardDrop_spec ⟨wellBoard, BLOCK 1, 3, -1, 1, 1, 0⟩ (fun _ => 0)).1 30
      ⟨wellBoard, BLOCK 1, 3, 16, 1, 1, 0⟩ (by rfl)).2.2.2.2.2.1,
    by decide,
    (hardDrop_spec ⟨wellBoard, BLOCK 1, 3, -1, 1, 1, 0⟩ (fun _ => 0)).2 4 2
      (by decide) (by decide) (by decide) (by decide) (by decide) (by decide) (by decide)
      (by decide) (by decide)⟩

/-! ## Board reset and spawn -/

/-- Closed form of `mapInitialize`: every cell of the grid is written, no other cell is. -/
theorem mapInitialize_cell (m : Grid) (r c : Int) :
    mapInitialize m r c =
      if 0 ≤ r ∧ r < 22 ∧ 0 ≤ c ∧ c < 11 then
        (if r = 1 ∧ c < 10 ∧ c > 0 then 8 else if r = 21 ∨ c = 0 ∨ c = 10 then 7 else 9)
      else m r c := by
  unfold mapInitialize
  rw [forRange_rows 0 HEIGHT 0 (fun _ c => 0 ≤ c ∧ c < 11)
    (fun i c _ => if i = 1 ∧ c < 10 ∧ c > 0 then 8 else if i = 21 ∨ c = 0 ∨ c = 10 then 7
      else 9) _ _ (by decide)]
  · simp only [HEIGHT, sub_zero]
  · intro i m r c
    rw [forRange_row 0 WIDTH i i 0
      (fun j _ => if i = 1 ∧ j < 10 ∧ j > 0 then 8 else if i = 21 ∨ j = 0 ∨ j = 10 then 7
        else 9) _ _ (by decide)]
    · simp only [WIDTH, sub_zero, zero_add]
    · intro j m r c
      simp only [WIDTH, HEIGHT, zero_add, ite_apply, setCell]
      split_ifs <;> first | rfl | omega

/-- The board after `mapInitialize` is, on the grid, the test board `wellBoard`. -/
theorem mapInitialize_gridEq (m : Grid) : GridEq (mapInitialize m) wellBoard := by
  intro r c h
  unfold InGrid at h
  simp only [HEIGHT, WIDTH] at h
  rw [mapInitialize_cell, if_pos (by omega)]
  unfold wellBoard
  split_ifs <;> first | rfl | omega

/-- Closed form of `blockInitialize` on the 5 x 5 box. -/
theorem blockInitialize_cell (CBlock : Grid) (t : Nat) (i j : Int)
    (hi0 : 0 ≤ i) (hi5 : i < 5) (hj0 : 0 ≤ j) (hj5 : j < 5) :
    blockInitialize CBlock t i j = BLOCK t i j := by
  unfold blockInitialize
  rw [forRange_rows 0 5 0 (fun _ c => 0 ≤ c ∧ c < 5) (fun i c _ => BLOCK t i c) _ _
    (by omega)]
  · rw [if_pos ⟨by omega, by omega, hj0, hj5⟩]
    congr 1
    ring
  · intro i m r c
    rw [forRange_row 0 5 i i 0 (fun j _ => BLOCK t i j) _ _ (by omega)]
    · simp only [sub_zero, zero_add]
    · intro j m r c
      simp only [zero_add, ite_apply, setCell]
      split_ifs <;> first | rfl | omega

/-- C14: `mapInitialize()` writes every cell of the grid, whatever it held: the cell is
`Wall` iff its column is 0 or 10 or its row is 21; otherwise it is `SpawnMarker` iff its row
is 1; otherwise it is `Empty`.  So the interior of row 0 is `Empty` and the interior of row 1
is `SpawnMarker`. -/
theorem mapInitialize_spec (m : Grid) :
    (∀ r c, InGrid r c →
      (isWall (mapInitialize m r c) ↔ (c = 0 ∨ c = 10 ∨ r = 21)) ∧
      (¬ (c = 0 ∨ c = 10 ∨ r = 21) → (isSpawnMarker (mapInitialize m r c) ↔ r = 1)) ∧
      (¬ (c = 0 ∨ c = 10 ∨ r = 21) → r ≠ 1 → isEmpty (mapInitialize m r c))) ∧
    Row0Empty (mapInitialize m) ∧ Row1Markers (mapInitialize m) := by
  refine ⟨fun r c h => ?_, fun j j1 j10 => ?_, fun j j1 j10 => ?_⟩
  · unfold InGrid at h
    simp only [HEIGHT, WIDTH] at h
    unfold isWall isSpawnMarker isEmpty
    rw [mapInitialize_cell, if_pos (by omega)]
    refine ⟨?_, fun hw => ?_, fun hw h1 => ?_⟩
    · split_ifs <;> omega
    · split_ifs <;> omega
    · split_ifs <;> omega
  · unfold isEmpty
    rw [mapInitialize_cell, if_pos (by omega)]
    split_ifs <;> omega
  · unfold isSpawnMarker
    rw [mapInitialize_cell, if_pos (by omega)]
    split_ifs <;> omega

theorem mapInitialize_spec_witness :
    InGrid 1 5 ∧ isSpawnMarker (mapInitialize twoFullRows 1 5) ∧
    InGrid 5 10 ∧ isWall (mapInitialize twoFullRows 5 10) ∧
    InGrid 5 4 ∧ isEmpty (mapInitialize twoFullRows 5 4) :=
  ⟨by decide,
    ((((mapInitialize_spec twoFullRows).1 1 5 (by decide)).2.1) (by decide)).2 rfl,
    by decide,
    (((mapInitialize_spec twoFullRows).1 5 10 (by decide)).1).2 (by decide),
    by decide,
    (((mapInitialize_spec twoFullRows).1 5 4 (by decide)).2.2) (by decide) (by decide)⟩

/-- C16: when the lock step does not declare the game over, the piece it spawns has anchor
column `WIDTH / 2 - 2 = 3` and anchor row `-1`, its type is the value `NextTYPE` held before
the lock, its shape is cell for cell the catalog template of that type, and the new
`NextTYPE` is a value of `rand() % 7`, hence in `0..6`. -/
theorem spawn_after_lock (g : TetrisApp) (rnd : Nat → Nat) (h : BlockArrived_over g = false) :
    (BlockArrived g rnd).x = 3 ∧ (BlockArrived g rnd).x = WIDTH / 2 - 2 ∧
    (BlockArrived g rnd).y = -1 ∧
    (BlockArrived g rnd).TYPE = g.NextTYPE ∧
    (∀ i j, 0 ≤ i → i < 5 → 0 ≤ j → j < 5 →
      (BlockArrived g rnd).CBlock i j = BLOCK g.NextTYPE i j) ∧
    (BlockArrived g rnd).NextTYPE = rnd 0 % 7 ∧ (BlockArrived g rnd).NextTYPE < 7 := by
  unfold BlockArrived_over at h
  have hx : (BlockArrived g rnd).x = WIDTH / 2 - 2 := rfl
  have hn : (BlockArrived g rnd).NextTYPE = rnd 0 % 7 := by
    simp only [BlockArrived, h, Bool.false_eq_true, if_false]
  have ht : (BlockArrived g rnd).TYPE = g.NextTYPE := by
    simp only [BlockArrived, h, Bool.false_eq_true, if_false]
    rfl
  refine ⟨by rw [hx]; decide, hx, rfl, ht, fun i j a b c d => ?_, hn, ?_⟩
  · have hc : (BlockArrived g rnd).CBlock
        = blockInitialize (g.blockToMap g.x g.y).CBlock g.NextTYPE := by
      simp only [BlockArrived, h, Bool.false_eq_true, if_false]
      rfl
    rw [hc, blockInitialize_cell _ _ i j a b c d]
  · rw [hn]
    exact Nat.mod_lt _ (by decide)

theorem spawn_after_lock_witness :
    BlockArrived_over ⟨wellBoard, BLOCK 1, 3, 16, 1, 4, 0⟩ = false ∧
    (BlockArrived ⟨wellBoard, BLOCK 1, 3, 16, 1, 4, 0⟩ (fun _ => 12)).x = 3 ∧
    (BlockArrived ⟨wellBoard, BLOCK 1, 3, 16, 1, 4, 0⟩ (fun _ => 12)).y = -1 ∧
    (BlockArrived ⟨wellBoard, BLOCK 1, 3, 16, 1, 4, 0⟩ (fun _ => 12)).TYPE = 4 :=
  ⟨by decide,
    (spawn_after_lock ⟨wellBoard, BLOCK 1, 3, 16, 1, 4, 0⟩ (fun _ => 12) (by decide)).1,
    (spawn_after_lock ⟨wellBoard, BLOCK 1, 3, 16, 1, 4, 0⟩ (fun _ => 12) (by decide)).2.2.1,
    (spawn_after_lock ⟨wellBoard, BLOCK 1, 3, 16, 1, 4, 0⟩ (fun _ => 12) (by decide)).2.2.2.1⟩

/-- C17: the transform of `blockRoll`, `s'[i][j] = s[j][4 - i]`, as its first loop nest
computes it, gives back the original 5 x 5 grid when it is applied four times; the contents
of the local array before each pass do not matter. -/
theorem rollFill_four_times (s z1 z2 z3 z4 : Grid) (i j : Int)
    (hi0 : 0 ≤ i) (hi5 : i < 5) (hj0 : 0 ≤ j) (hj5 : j < 5) :
    rollFill (rollFill (rollFill (rollFill s z1) z2) z3) z4 i j = s i j := by
  rw [rollFill_cell _ _ i j hi0 hi5 hj0 hj5,
    rollFill_cell _ _ j (4 - i) hj0 hj5 (by omega) (by omega),
    rollFill_cell _ _ (4 - i) (4 - j) (by omega) (by omega) (by omega) (by omega),
    rollFill_cell _ _ (4 - j) (4 - (4 - i)) (by omega) (by omega) (by omega) (by omega)]
  have e1 : 4 - (4 - i) = i := by ring
  have e2 : 4 - (4 - j) = j := by ring
  rw [e1, e2]

theorem rollFill_four_times_witness :
    (0 : Int) ≤ 1 ∧ (1 : Int) < 5 ∧ (0 : Int) ≤ 2 ∧ (2 : Int) < 5 ∧
    rollFill (rollFill (rollFill (rollFill (BLOCK 5) wellBoard) wellBoard) wellBoard)
      wellBoard 1 2 = BLOCK 5 1 2 :=
  ⟨by decide, by decide, by decide, by decide,
    rollFill_four_times (BLOCK 5) wellBoard wellBoard wellBoard wellBoard 1 2
      (by decide) (by decide) (by decide) (by decide)⟩

/-- C18: a rotate command issued while `TYPE` is 0 (the square) leaves the active shape, and
the whole state, as it was, for every board, anchor and shape, also where the rotated shape
would not collide. -/
theorem square_rotate_noop (g : TetrisApp) (h : g.TYPE = 0) :
    OnKeyboardInput_UP g = g ∧ (OnKeyboardInput_UP g).CBlock = g.CBlock := by
  have e : OnKeyboardInput_UP g = g := by
    unfold OnKeyboardInput_UP
    simp [h]
  exact ⟨e, by rw [e]⟩

/-- The square at a free position, where the rotated shape does not collide. -/
theorem square_rotate_noop_witness :
    checkBlock wellBoard 3 5 (fun i j => BLOCK 0 j (4 - i)) = false ∧
    (OnKeyboardInput_UP ⟨wellBoard, BLOCK 0, 3, 5, 0, 1, 0⟩).CBlock = BLOCK 0 :=
  ⟨by decide, (square_rotate_noop ⟨wellBoard, BLOCK 0, 3, 5, 0, 1, 0⟩ rfl).2⟩

/-- C15: each of the 7 templates `BLOCK[0..6]` has exactly 4 filled cells, they are
edge-connected and carry one colour in `0..6`, and the other 21 cells are `Empty`; two
different templates differ in their filled cells and in their colour.  The table has no
further template. -/
theorem BLOCK_catalog :
    (∀ t, t < 7 →
      (filledCells (BLOCK t)).length = 4 ∧ edgeConnected (filledCells (BLOCK t)) = true ∧
      isLocked (colourOf (BLOCK t)) ∧
      (∀ i, 0 ≤ i → i < 5 → ∀ j, 0 ≤ j → j < 5 →
        BLOCK t i j = colourOf (BLOCK t) ∨ isEmpty (BLOCK t i j))) ∧
    (∀ t, t < 7 → ∀ u, u < 7 → t ≠ u →
      filledCells (BLOCK t) ≠ filledCells (BLOCK u) ∧
      colourOf (BLOCK t) ≠ colourOf (BLOCK u)) ∧
    (∀ t, 7 ≤ t → filledCells (BLOCK t) = []) := by
  refine ⟨by decide, by decide, fun t ht => ?_⟩
  obtain ⟨k, rfl⟩ : ∃ k, t = k + 7 := ⟨t - 7, by omega⟩
  have e : BLOCK (k + 7) = ofRows [] := rfl
  rw [e]
  decide

theorem BLOCK_catalog_witness :
    (4 : Nat) < 7 ∧ (filledCells (BLOCK 4)).length = 4 ∧
    filledCells (BLOCK 4) = [(1, 2), (2, 1), (2, 2), (2, 3)] ∧
    colourOf (BLOCK 4) = 1 ∧ colourOf (BLOCK 4) ≠ colourOf (BLOCK 5) :=
  ⟨by decide, (BLOCK_catalog.1 4 (by decide)).1, by decide, by decide,
    (BLOCK_catalog.2.1 4 (by decide) 5 (by decide) (by decide)).2⟩
/-! ## Boards that agree on the grid -/

theorem checkBlock_congr_map (a b s t : Grid) (x y : Int) (hm : GridEq a b)
    (hs : ShapeEq s t) : checkBlock a x y s = checkBlock b x y t := by
  rw [checkBlock_congr a s t x y hs, Bool.eq_iff_iff, checkBlock_eq_true, checkBlock_eq_true]
  constructor
  · rintro ⟨i, j, a1, a2, a3, a4, a5, a6, a7⟩
    exact ⟨i, j, a1, a2, a3, a4, a5, a6, by rw [← hm _ _ a5]; exact a7⟩
  · rintro ⟨i, j, a1, a2, a3, a4, a5, a6, a7⟩
    exact ⟨i, j, a1, a2, a3, a4, a5, a6, by rw [hm _ _ a5]; exact a7⟩

theorem checkOver_eq_true_iff (m : Grid) :
    checkOver m = true ↔ ∃ j, 1 ≤ j ∧ j ≤ 9 ∧ m 1 j ≠ 8 := by
  unfold checkOver
  rw [anyRange_eq_true]
  simp only [WIDTH]
  constructor
  · rintro ⟨j, h1, h2, h3⟩
    exact ⟨j, h1, by omega, by simpa using h3⟩
  · rintro ⟨j, h1, h2, h3⟩
    exact ⟨j, h1, by omega, by simpa using h3⟩

theorem checkOver_congr (a b : Grid) (hm : GridEq a b) : checkOver a = checkOver b := by
  rw [Bool.eq_iff_iff, checkOver_eq_true_iff, checkOver_eq_true_iff]
  have e : ∀ j, 1 ≤ j → j ≤ 9 → a 1 j = b 1 j := fun j h1 h2 =>
    hm 1 j ⟨by decide, by decide, by omega, by simp only [WIDTH]; omega⟩
  constructor
  · rintro ⟨j, h1, h2, h3⟩
    exact ⟨j, h1, h2, by rw [← e j h1 h2]; exact h3⟩
  · rintro ⟨j, h1, h2, h3⟩
    exact ⟨j, h1, h2, by rw [e j h1 h2]; exact h3⟩

theorem lineFlag_congr (a b : Grid) (r : Int) (hm : GridEq a b) (h0 : 0 ≤ r) (h21 : r ≤ 21) :
    lineFlag a r = lineFlag b r := by
  rw [Bool.eq_iff_iff, lineFlag_iff, lineFlag_iff]
  have e : ∀ j, 1 ≤ j → j < 10 → a r j = b r j := fun j h1 h2 =>
    hm r j ⟨h0, by simp only [HEIGHT]; omega, by omega, by simp only [WIDTH]; omega⟩
  constructor
  · intro h j h1 h2
    rw [← e j h1 h2]; exact h j h1 h2
  · intro h j h1 h2
    rw [e j h1 h2]; exact h j h1 h2

theorem blockToMap_gridEq (a b s t : Grid) (x y : Int) (hm : GridEq a b) (hs : ShapeEq s t) :
    GridEq (blockToMap a s x y) (blockToMap b t x y) := by
  intro r c h
  rw [blockToMap_cell, blockToMap_cell]
  by_cases e : 0 ≤ r - y ∧ r - y < 5 ∧ 0 ≤ c - x ∧ c - x < 5
  · rw [hs (r - y) (c - x) e.1 e.2.1 e.2.2.1 e.2.2.2, hm r c h]
  · rw [if_neg (fun q => e ⟨q.1, q.2.1, q.2.2.1, q.2.2.2.1⟩),
      if_neg (fun q => e ⟨q.1, q.2.1, q.2.2.1, q.2.2.2.1⟩)]
    exact hm r c h

/-- When none of the rows `y .. y + 4` passes the test, `checkLine` changes nothing. -/
theorem checkLine_noop (m : Grid) (y score : Int)
    (h : ∀ i, 0 ≤ i → i < 5 → lineFlag m (y + i) = false) :
    checkLine m y score = (m, score) := by
  unfold checkLine
  exact forRange_inv 0 5 _ (fun _ st => st = (m, score)) (m, score) (by omega) rfl
    (by
      intro k st hk0 hk5 hst
      subst hst
      simp only [h k hk0 hk5, Bool.false_eq_true, if_false])

/-! ## The hard drop as a function of the board and the shape -/

theorem hardDropLoop_eq_dropRow (fuel : Nat) :
    ∀ g : TetrisApp, hardDropLoop fuel g =
      (dropRow g.map g.CBlock g.x fuel g.y).map (fun yf => { g with y := yf }) := by
  induction fuel with
  | zero => intro g; rfl
  | succ n ih =>
    intro g
    unfold hardDropLoop dropRow
    by_cases hc : checkBlock g.map g.x (g.y + 1) g.CBlock = true
    · simp [hc]
    · have hc' : checkBlock g.map g.x (g.y + 1) g.CBlock = false := by simpa using hc
      simp only [hc', Bool.not_false, if_true]
      rw [ih]

theorem dropRow_congr (a b s t : Grid) (x : Int) (hm : GridEq a b) (hs : ShapeEq s t)
    (fuel : Nat) : ∀ y, dropRow a s x fuel y = dropRow b t x fuel y := by
  induction fuel with
  | zero => intro y; rfl
  | succ n ih =>
    intro y
    unfold dropRow
    rw [checkBlock_congr_map a b s t x (y + 1) hm hs, ih]

/-! ## The two branches of the lock step -/

/-- The lock step when the test `checkOver()` after the merge is false. -/
theorem BlockArrived_of_not_over (g : TetrisApp) (rnd : Nat → Nat)
    (h : BlockArrived_over g = false) :
    BlockArrived g rnd =
      { map := (checkLine (blockToMap g.map g.CBlock g.x g.y) g.y g.score).1
        CBlock := blockInitialize g.CBlock g.NextTYPE
        x := WIDTH / 2 - 2
        y := -1
        TYPE := g.NextTYPE
        NextTYPE := rnd 0 % 7
        score := (checkLine (blockToMap g.map g.CBlock g.x g.y) g.y g.score).2 } := by
  have h' : checkOver (blockToMap g.map g.CBlock g.x g.y) = false := h
  simp only [BlockArrived, TetrisApp.blockToMap, TetrisApp.checkLine, h', Bool.false_eq_true,
    if_false]

/-- The lock step when the test `checkOver()` after the merge is true: `GameInitialize()`
runs, and the rest of `BlockArrived` runs after it. -/
theorem BlockArrived_of_over (g : TetrisApp) (rnd : Nat → Nat)
    (h : BlockArrived_over g = true) :
    BlockArrived g rnd =
      { map := (checkLine (mapInitialize (blockToMap g.map g.CBlock g.x g.y)) (-1) 0).1
        CBlock := blockInitialize (blockInitialize g.CBlock (rnd 0 % 7)) (rnd 1 % 7)
        x := WIDTH / 2 - 2
        y := -1
        TYPE := rnd 1 % 7
        NextTYPE := rnd 2 % 7
        score := (checkLine (mapInitialize (blockToMap g.map g.CBlock g.x g.y)) (-1) 0).2 } := by
  have h' : checkOver (blockToMap g.map g.CBlock g.x g.y) = true := h
  simp only [BlockArrived, TetrisApp.blockToMap, TetrisApp.checkLine, h', if_true,
    GameInitialize]

/-- No row of a board that is a freshly reset board on the grid passes the test of
`checkLine`. -/
theorem lineFlag_fresh (m : Grid) (hm : GridEq m wellBoard) (r : Int) (h0 : 0 ≤ r)
    (h21 : r ≤ 21) : lineFlag m r = false := by
  rw [lineFlag_congr m wellBoard r hm h0 h21, ← Bool.not_eq_true, lineFlag_iff]
  intro h
  have := h 1 (by decide) (by decide)
  unfold wellBoard at this
  split_ifs at this <;> omega

/-- Row removal at a negative index shifts nothing: it is `removeLine(0)`. -/
theorem removeLine_neg (m : Grid) (i : Int) (hi : i ≤ 0) : removeLine m i = removeLine m 0 := by
  have e : i.toNat = (0 : Int).toNat := by
    rw [Int.toNat_eq_zero.2 hi]
    rfl
  unfold removeLine
  rw [e]

theorem removeLine_zero_fresh (m : Grid) (hm : GridEq m wellBoard) :
    GridEq (removeLine m 0) wellBoard := by
  intro r c h
  have hw := hm r c h
  unfold InGrid at h
  simp only [HEIGHT, WIDTH] at h
  have k1 := hm 1 c ⟨by decide, by decide, h.2.2.1, h.2.2.2⟩
  have k2 := hm 2 c ⟨by decide, by decide, h.2.2.1, h.2.2.2⟩
  rw [removeLine_cell m 0 (le_refl _)]
  unfold shiftedRows
  have r4 : r = 0 ∨ r = 1 ∨ r = 2 ∨ 3 ≤ r := by omega
  rcases r4 with e | e | e | e
  · subst e
    unfold wellBoard at hw ⊢
    split_ifs at hw ⊢ <;> omega
  · subst e
    unfold wellBoard at k1 ⊢
    split_ifs at k1 ⊢ <;> omega
  · subst e
    unfold wellBoard at k2 ⊢
    split_ifs at k2 ⊢ <;> omega
  · unfold wellBoard at hw ⊢
    split_ifs at hw ⊢ <;> omega

/-- Line clearing at `y = -1` on a board that is freshly reset on the grid: the grid is
as before, and the score grows by 10 exactly when the row `-1`, which is not a row of the
board, passes the test. -/
theorem checkLine_restart (m : Grid) (hm : GridEq m wellBoard) (score : Int) :
    GridEq (checkLine m (-1) score).1 wellBoard ∧
    (checkLine m (-1) score).2 = (if lineFlag m (-1) = true then score + 10 else score) := by
  have rest : ∀ (m' : Grid) (s : Int), GridEq m' wellBoard →
      forLoop (fun i (st : Grid × Int) =>
        if lineFlag st.1 (-1 + i) = true then (removeLine st.1 (-1 + i), st.2 + 10) else st)
        1 4 (m', s) = (m', s) := by
    intro m' s hm'
    have h := forLoop_inv (fun i (st : Grid × Int) =>
        if lineFlag st.1 (-1 + i) = true then (removeLine st.1 (-1 + i), st.2 + 10) else st)
      (fun _ st => st = (m', s)) 4 1 (m', s) rfl
      (by
        intro k st hk1 hk5 hst
        subst hst
        have hf : lineFlag m' (-1 + k) = false :=
          lineFlag_fresh m' hm' (-1 + k) (by omega) (by push_cast at hk5; omega)
        simp only [hf, Bool.false_eq_true, if_false])
    exact h
  have e : checkLine m (-1) score =
      forLoop (fun i (st : Grid × Int) =>
        if lineFlag st.1 (-1 + i) = true then (removeLine st.1 (-1 + i), st.2 + 10) else st)
        1 4 (if lineFlag m (-1) = true then (removeLine m (-1), score + 10) else (m, score)) := by
    unfold checkLine forRange
    show forLoop _ 0 5 (m, score) = _
    rw [forLoop]
    simp only [add_zero, zero_add]
  rw [e]
  by_cases hf : lineFlag m (-1) = true
  · have hg : GridEq (removeLine m (-1)) wellBoard := by
      rw [removeLine_neg m (-1) (by decide)]
      exact removeLine_zero_fresh m hm
    simp only [hf, if_true]
    rw [rest _ _ hg]
    exact ⟨hg, rfl⟩
  · simp only [hf, Bool.false_eq_true, if_false]
    rw [rest _ _ hm]
    exact ⟨hm, rfl⟩

/-- The lock step that declares the game over restarts the session: on the grid the board is
the freshly reset one, a piece of a freshly drawn type stands at the spawn anchor, and the
score is that of a new session, up to the 10 points of a line clear at row `-1`. -/
theorem BlockArrived_restart (g : TetrisApp) (rnd : Nat → Nat)
    (h : BlockArrived_over g = true) :
    GridEq (BlockArrived g rnd).map wellBoard ∧
    ((BlockArrived g rnd).score = 0 ∨ (BlockArrived g rnd).score = 10) ∧
    (BlockArrived g rnd).x = 3 ∧ (BlockArrived g rnd).y = -1 ∧
    (BlockArrived g rnd).TYPE = rnd 1 % 7 ∧ (BlockArrived g rnd).NextTYPE = rnd 2 % 7 ∧
    ShapeEq (BlockArrived g rnd).CBlock (BLOCK (rnd 1 % 7)) := by
  have e := BlockArrived_of_over g rnd h
  have emap : (BlockArrived g rnd).map =
      (checkLine (mapInitialize (blockToMap g.map g.CBlock g.x g.y)) (-1) 0).1 := by rw [e]
  have escore : (BlockArrived g rnd).score =
      (checkLine (mapInitialize (blockToMap g.map g.CBlock g.x g.y)) (-1) 0).2 := by rw [e]
  have eshape : (BlockArrived g rnd).CBlock =
      blockInitialize (blockInitialize g.CBlock (rnd 0 % 7)) (rnd 1 % 7) := by rw [e]
  have etype : (BlockArrived g rnd).TYPE = rnd 1 % 7 := by rw [e]
  have enext : (BlockArrived g rnd).NextTYPE = rnd 2 % 7 := by rw [e]
  have ex : (BlockArrived g rnd).x = WIDTH / 2 - 2 := rfl
  have hc := checkLine_restart (mapInitialize (blockToMap g.map g.CBlock g.x g.y))
    (mapInitialize_gridEq _) 0
  refine ⟨?_, ?_, by rw [ex]; decide, rfl, etype, enext, fun i j a b c d => ?_⟩
  · rw [emap]
    exact hc.1
  · rw [escore, hc.2]
    split_ifs
    · right; rfl
    · left; rfl
  · rw [eshape]
    exact blockInitialize_cell _ _ i j a b c d

/-- The lock step that clears no line and does not declare the game over: the board is the
merged one, the score is as before, and the next piece is spawned. -/
theorem BlockArrived_plain (g : TetrisApp) (rnd : Nat → Nat) (W S : Grid)
    (hm : GridEq g.map W) (hs : ShapeEq g.CBlock S) (hy0 : 0 ≤ g.y) (hy : g.y + 4 ≤ 21)
    (hover : checkOver (blockToMap W S g.x g.y) = false)
    (hflag : ∀ i, 0 ≤ i → i < 5 → lineFlag (blockToMap W S g.x g.y) (g.y + i) = false) :
    BlockArrived_over g = false ∧
    GridEq (BlockArrived g rnd).map (blockToMap W S g.x g.y) ∧
    (BlockArrived g rnd).score = g.score ∧
    ShapeEq (BlockArrived g rnd).CBlock (BLOCK g.NextTYPE) ∧
    (BlockArrived g rnd).x = 3 ∧ (BlockArrived g rnd).y = -1 ∧
    (BlockArrived g rnd).TYPE = g.NextTYPE ∧ (BlockArrived g rnd).NextTYPE = rnd 0 % 7 := by
  have hg : GridEq (blockToMap g.map g.CBlock g.x g.y) (blockToMap W S g.x g.y) :=
    blockToMap_gridEq _ _ _ _ _ _ hm hs
  have hov : BlockArrived_over g = false := by
    show checkOver (blockToMap g.map g.CBlock g.x g.y) = false
    rw [checkOver_congr _ _ hg]
    exact hover
  have hno : checkLine (blockToMap g.map g.CBlock g.x g.y) g.y g.score
      = (blockToMap g.map g.CBlock g.x g.y, g.score) := by
    apply checkLine_noop
    intro i i0 i5
    rw [lineFlag_congr _ _ _ hg (by omega) (by omega)]
    exact hflag i i0 i5
  have e := BlockArrived_of_not_over g rnd hov
  rw [hno] at e
  have emap : (BlockArrived g rnd).map = blockToMap g.map g.CBlock g.x g.y := by rw [e]
  have escore : (BlockArrived g rnd).score = g.score := by rw [e]
  have eshape : (BlockArrived g rnd).CBlock = blockInitialize g.CBlock g.NextTYPE := by
    rw [e]
  have etype : (BlockArrived g rnd).TYPE = g.NextTYPE := by rw [e]
  have enext : (BlockArrived g rnd).NextTYPE = rnd 0 % 7 := by rw [e]
  have ex : (BlockArrived g rnd).x = WIDTH / 2 - 2 := rfl
  refine ⟨hov, by rw [emap]; exact hg, escore, fun i j a b c d => ?_, by rw [ex]; decide,
    rfl, etype, enext⟩
  rw [eshape]
  exact blockInitialize_cell _ _ i j a b c d

/-- The hard drop that ends in such a lock step. -/
theorem space_plain (g : TetrisApp) (rnd : Nat → Nat) (W S : Grid) (fuel : Nat) (yf : Int)
    (hm : GridEq g.map W) (hs : ShapeEq g.CBlock S)
    (hdrop : dropRow W S g.x fuel g.y = some yf) (hy0 : 0 ≤ yf) (hy : yf + 4 ≤ 21)
    (hover : checkOver (blockToMap W S g.x yf) = false)
    (hflag : ∀ i, 0 ≤ i → i < 5 → lineFlag (blockToMap W S g.x yf) (yf + i) = false) :
    ∃ g1, OnKeyboardInput_SPACE fuel g rnd = some g1 ∧
      hardDropLoop fuel g = some { g with y := yf } ∧
      GridEq g1.map (blockToMap W S g.x yf) ∧ g1.score = g.score ∧
      ShapeEq g1.CBlock (BLOCK g.NextTYPE) ∧ g1.x = 3 ∧ g1.y = -1 ∧
      g1.TYPE = g.NextTYPE ∧ g1.NextTYPE = rnd 0 % 7 := by
  have hl : hardDropLoop fuel g = some { g with y := yf } := by
    rw [hardDropLoop_eq_dropRow, dropRow_congr g.map W g.CBlock S g.x hm hs, hdrop]
    rfl
  obtain ⟨-, h2, h3, h4, h5, h6, h7, h8⟩ :=
    BlockArrived_plain { g with y := yf } rnd W S hm hs hy0 hy hover hflag
  exact ⟨BlockArrived { g with y := yf } rnd, by simp [OnKeyboardInput_SPACE, hl], hl, h2, h3,
    h4, h5, h6, h7, h8⟩

/-! ## The end-to-end scenario -/

/-- The merge of the vertical I piece at column 6, row 16 into the freshly reset board. -/
theorem scenario_board :
    ∀ r, 0 ≤ r → r < 22 → ∀ c, 0 ≤ c → c < 11 →
      blockToMap wellBoard (BLOCK 1) 6 16 r c =
        if c = 8 ∧ 17 ≤ r ∧ r ≤ 20 then 0 else wellBoard r c := by
  decide

/-- An accepted `MoveRight`. -/
theorem right_accepted (g : TetrisApp) (W S : Grid) (hm : GridEq g.map W)
    (hs : ShapeEq g.CBlock S) (h : checkBlock W (g.x + 1) g.y S = false) :
    checkBlock g.map (g.x + 1) g.y g.CBlock = false ∧
    OnKeyboardInput_RIGHT g = { g with x := g.x + 1 } := by
  have hc : checkBlock g.map (g.x + 1) g.y g.CBlock = false := by
    rw [checkBlock_congr_map _ _ _ _ _ _ hm hs]; exact h
  exact ⟨hc, by simp [OnKeyboardInput_RIGHT, hc]⟩

/-- C19: a session freshly initialised with current type 1 (the vertical I): the piece
stands at column 3, row -1; three `MoveRight` commands are accepted and bring it to column
6; the hard drop stops at row 16 and the lock writes colour 0 at rows 17..20 of column 8;
every other cell of the board is as on the freshly reset board, the score is 0 and
`checkOver` is false. -/
theorem end_to_end_scenario (g0 : TetrisApp) (rnd rnd1 : Nat → Nat) (h : rnd 0 % 7 = 1)
    (s0 s1 s2 s3 : TetrisApp) (e0 : s0 = GameInitialize g0 rnd)
    (e1 : s1 = OnKeyboardInput_RIGHT s0) (e2 : s2 = OnKeyboardInput_RIGHT s1)
    (e3 : s3 = OnKeyboardInput_RIGHT s2) :
    s0.TYPE = 1 ∧ s0.x = 3 ∧ s0.y = -1 ∧ s0.score = 0 ∧
    checkBlock s0.map (s0.x + 1) s0.y s0.CBlock = false ∧
    checkBlock s1.map (s1.x + 1) s1.y s1.CBlock = false ∧
    checkBlock s2.map (s2.x + 1) s2.y s2.CBlock = false ∧
    s3.x = 6 ∧ s3.y = -1 ∧
    hardDropLoop 30 s3 = some { s3 with y := 16 } ∧
    ∃ sf, OnKeyboardInput_SPACE 30 s3 rnd1 = some sf ∧
      (∀ r c, InGrid r c →
        sf.map r c = if c = 8 ∧ 17 ≤ r ∧ r ≤ 20 then 0 else mapInitialize g0.map r c) ∧
      sf.score = 0 ∧ checkOver sf.map = false := by
  have hm0 : GridEq s0.map wellBoard := by rw [e0]; exact mapInitialize_gridEq _
  have hs0 : ShapeEq s0.CBlock (BLOCK 1) := by
    rw [e0]
    intro i j a b c d
    show blockInitialize g0.CBlock (rnd 0 % 7) i j = _
    rw [h]
    exact blockInitialize_cell _ _ i j a b c d
  have hx0 : s0.x = 3 := by rw [e0]; show (WIDTH / 2 - 2 : Int) = 3; decide
  have hy0 : s0.y = -1 := by rw [e0]; rfl
  have ht0 : s0.TYPE = 1 := by rw [e0]; exact h
  have hsc0 : s0.score = 0 := by rw [e0]; rfl
  obtain ⟨c0, r0⟩ := right_accepted s0 wellBoard (BLOCK 1) hm0 hs0
    (by rw [hx0, hy0]; decide)
  rw [← e1] at r0
  have hx1 : s1.x = 4 := by rw [r0]; show s0.x + 1 = 4; rw [hx0]; rfl
  have hy1 : s1.y = -1 := by rw [r0]; exact hy0
  have hm1 : GridEq s1.map wellBoard := by rw [r0]; exact hm0
  have hs1 : ShapeEq s1.CBlock (BLOCK 1) := by rw [r0]; exact hs0
  obtain ⟨c1, r1⟩ := right_accepted s1 wellBoard (BLOCK 1) hm1 hs1
    (by rw [hx1, hy1]; decide)
  rw [← e2] at r1
  have hx2 : s2.x = 5 := by rw [r1]; show s1.x + 1 = 5; rw [hx1]; rfl
  have hy2 : s2.y = -1 := by rw [r1]; exact hy1
  have hm2 : GridEq s2.map wellBoard := by rw [r1]; exact hm1
  have hs2 : ShapeEq s2.CBlock (BLOCK 1) := by rw [r1]; exact hs1
  obtain ⟨c2, r2⟩ := right_accepted s2 wellBoard (BLOCK 1) hm2 hs2
    (by rw [hx2, hy2]; decide)
  rw [← e3] at r2
  have hx3 : s3.x = 6 := by rw [r2]; show s2.x + 1 = 6; rw [hx2]; rfl
  have hy3 : s3.y = -1 := by rw [r2]; exact hy2
  have hm3 : GridEq s3.map wellBoard := by rw [r2]; exact hm2
  have hs3 : ShapeEq s3.CBlock (BLOCK 1) := by rw [r2]; exact hs2
  have hsc3 : s3.score = 0 := by rw [r2, r1, r0]; exact hsc0
  obtain ⟨sf, f1, f2, f3, f4, -⟩ := space_plain s3 rnd1 wellBoard (BLOCK 1) 30 16 hm3 hs3
    (by rw [hx3, hy3]; decide) (by decide) (by decide) (by rw [hx3]; decide)
    (by rw [hx3]; decide)
  rw [hx3] at f3
  refine ⟨ht0, hx0, hy0, hsc0, c0, c1, c2, hx3, hy3, f2, sf, f1, fun r c hg => ?_,
    by rw [f4, hsc3], ?_⟩
  · rw [f3 r c hg, scenario_board r hg.1 hg.2.1 c hg.2.2.1 hg.2.2.2,
      ← mapInitialize_gridEq g0.map r c hg]
  · rw [checkOver_congr _ _ f3]
    decide

theorem end_to_end_scenario_witness :
    (fun _ : Nat => 8) 0 % 7 = 1 ∧
    (OnKeyboardInput_RIGHT (OnKeyboardInput_RIGHT (OnKeyboardInput_RIGHT
      (GameInitialize ⟨twoFullRows, BLOCK 3, 0, 0, 2, 2, 70⟩ (fun _ => 8))))).x = 6 ∧
    hardDropLoop 30 (OnKeyboardInput_RIGHT (OnKeyboardInput_RIGHT (OnKeyboardInput_RIGHT
      (GameInitialize ⟨twoFullRows, BLOCK 3, 0, 0, 2, 2, 70⟩ (fun _ => 8))))) =
      some { OnKeyboardInput_RIGHT (OnKeyboardInput_RIGHT (OnKeyboardInput_RIGHT
        (GameInitialize ⟨twoFullRows, BLOCK 3, 0, 0, 2, 2, 70⟩ (fun _ => 8)))) with y := 16 } :=
  ⟨by decide,
    (end_to_end_scenario ⟨twoFullRows, BLOCK 3, 0, 0, 2, 2, 70⟩ (fun _ => 8) (fun _ => 8)
      (by decide) _ _ _ _ rfl rfl rfl rfl).2.2.2.2.2.2.2.1,
    (end_to_end_scenario ⟨twoFullRows, BLOCK 3, 0, 0, 2, 2, 70⟩ (fun _ => 8) (fun _ => 8)
      (by decide) _ _ _ _ rfl rfl rfl rfl).2.2.2.2.2.2.2.2.2.1⟩

/-! ## Game over test in the lock step -/

/-- After `removeLine(r)` with `r >= 1` on a board whose row 0 interior is `Empty`, the
interior of row 1 is all `SpawnMarker`. -/
theorem removeLine_row1 (m : Grid) (r : Int) (h1 : 1 ≤ r) (h0 : Row0Empty m) :
    Row1Markers (removeLine m r) := by
  intro j j1 j10
  have e := h0 j j1 j10
  unfold isEmpty at e
  unfold isSpawnMarker
  have hs : shiftedRows m r 1 j = 9 := by
    unfold shiftedRows
    rw [if_pos (by omega)]
    simpa using e
  rw [removeLine_cell m r (by omega), if_neg (by omega), if_pos (by omega), hs]
  rfl

/-- Against C11 as stated: the vertical I piece at column 3, row 0 of the test board
`holeInRow4` is in a lock position, and the merge puts a cell into row 1 and completes row 4.  The lock step declares the
game over, although `checkOver` is false on the board after the line clear. -/
theorem over_test_before_clear :
    checkBlock holeInRow4 3 0 (BLOCK 1) = false ∧
    checkBlock holeInRow4 3 (0 + 1) (BLOCK 1) = true ∧
    BlockArrived_over ⟨holeInRow4, BLOCK 1, 3, 0, 1, 1, 50⟩ = true ∧
    fullRows (blockToMap holeInRow4 (BLOCK 1) 3 0) 0 = [4] ∧
    checkOver (checkLine (blockToMap holeInRow4 (BLOCK 1) 3 0) 0 50).1 = false := by
  have hl : fullRowsUpTo (blockToMap holeInRow4 (BLOCK 1) 3 0) 0 5 = [4] := by decide
  refine ⟨by decide, by decide, by decide, hl, ?_⟩
  have hc := checkLine_loop (blockToMap holeInRow4 (BLOCK 1) 3 0) 0 50 (by decide)
    (by decide) (by decide) 5 (le_refl _)
  have hc' : checkLine (blockToMap holeInRow4 (BLOCK 1) 3 0) 0 50 =
      (removeLine (blockToMap holeInRow4 (BLOCK 1) 3 0) 4, 50 + 10 * ((1 : Nat) : Int)) := by
    unfold checkLine forRange
    rw [show ((5 : Int) - 0).toNat = 5 from rfl, hc, hl]
    rfl
  rw [hc', ← Bool.not_eq_true, checkOver_eq_true_iff]
  rintro ⟨j, j1, j9, hj⟩
  have hr : Row1Markers (removeLine (blockToMap holeInRow4 (BLOCK 1) 3 0) 4) :=
    removeLine_row1 (blockToMap holeInRow4 (BLOCK 1) 3 0) 4 (by decide) (by decide)
  exact hj (hr j j1 (by omega))

/-- C11, as the code has it: the lock step tests `checkOver` on the board right after the
merge, before any line is cleared.  It declares the game over exactly when an interior cell
of row 1 of the merged board is not `SpawnMarker`; when it does not, the board and the score
are those of `checkLine` on the merged board and the next piece is spawned; when it does, the
session is restarted (fresh board, freshly drawn type). -/
theorem lock_over_test (g : TetrisApp) (rnd : Nat → Nat) :
    (BlockArrived_over g = true ↔
      ∃ j, 1 ≤ j ∧ j ≤ 9 ∧ ¬ isSpawnMarker (blockToMap g.map g.CBlock g.x g.y 1 j)) ∧
    (BlockArrived_over g = false →
      (BlockArrived g rnd).map = (checkLine (blockToMap g.map g.CBlock g.x g.y) g.y g.score).1 ∧
      (BlockArrived g rnd).score
        = (checkLine (blockToMap g.map g.CBlock g.x g.y) g.y g.score).2 ∧
      (BlockArrived g rnd).TYPE = g.NextTYPE) ∧
    (BlockArrived_over g = true →
      GridEq (BlockArrived g rnd).map (mapInitialize g.map) ∧
      (BlockArrived g rnd).TYPE = rnd 1 % 7) := by
  refine ⟨?_, fun h => ?_, fun h => ?_⟩
  · show checkOver (blockToMap g.map g.CBlock g.x g.y) = true ↔ _
    rw [checkOver_eq_true_iff]
    rfl
  · have e := BlockArrived_of_not_over g rnd h
    exact ⟨by rw [e], by rw [e], by rw [e]⟩
  · obtain ⟨h1, -, -, -, h5, -⟩ := BlockArrived_restart g rnd h
    exact ⟨fun r c hg => by rw [h1 r c hg, mapInitialize_gridEq g.map r c hg], h5⟩

theorem lock_over_test_witness :
    BlockArrived_over ⟨wellBoard, BLOCK 1, 3, 16, 1, 4, 0⟩ = false ∧
    (BlockArrived ⟨wellBoard, BLOCK 1, 3, 16, 1, 4, 0⟩ (fun _ => 12)).TYPE = 4 ∧
    BlockArrived_over ⟨holeInRow4, BLOCK 1, 3, 0, 1, 1, 50⟩ = true ∧
    (BlockArrived ⟨holeInRow4, BLOCK 1, 3, 0, 1, 1, 50⟩ (fun _ => 12)).TYPE = 12 % 7 :=
  ⟨by decide,
    ((lock_over_test ⟨wellBoard, BLOCK 1, 3, 16, 1, 4, 0⟩ (fun _ => 12)).2.1 (by decide)).2.2,
    by decide,
    ((lock_over_test ⟨holeInRow4, BLOCK 1, 3, 0, 1, 1, 50⟩ (fun _ => 12)).2.2 (by decide)).2⟩

/-- Against C20 as stated: the lock of the vertical I piece at column 3, row 0 of
`holeInRow4` with score 50 is declared over, and the lock step does not keep the state: the cell `(1, 5)` that the merge
filled is a `SpawnMarker` again, the score is no longer 50, and a piece stands at the spawn
anchor. -/
theorem game_over_not_terminal :
    BlockArrived_over ⟨holeInRow4, BLOCK 1, 3, 0, 1, 1, 50⟩ = true ∧
    blockToMap holeInRow4 (BLOCK 1) 3 0 1 5 = 0 ∧
    (BlockArrived ⟨holeInRow4, BLOCK 1, 3, 0, 1, 1, 50⟩ (fun _ => 0)).map 1 5 = 8 ∧
    (BlockArrived ⟨holeInRow4, BLOCK 1, 3, 0, 1, 1, 50⟩ (fun _ => 0)).score ≠ 50 ∧
    (BlockArrived ⟨holeInRow4, BLOCK 1, 3, 0, 1, 1, 50⟩ (fun _ => 0)).y = -1 ∧
    (BlockArrived ⟨holeInRow4, BLOCK 1, 3, 0, 1, 1, 50⟩ (fun _ => 0)).TYPE = 0 ∧
    ShapeEq (BlockArrived ⟨holeInRow4, BLOCK 1, 3, 0, 1, 1, 50⟩ (fun _ => 0)).CBlock
      (BLOCK 0) := by
  obtain ⟨h1, h2, -, h4, h5, -, h7⟩ :=
    BlockArrived_restart ⟨holeInRow4, BLOCK 1, 3, 0, 1, 1, 50⟩ (fun _ => 0) (by decide)
  refine ⟨by decide, by decide, ?_, ?_, h4, h5, h7⟩
  · rw [h1 1 5 (by decide)]
    decide
  · rcases h2 with q | q <;> rw [q] <;> decide

/-- C20, as the code has it: the lock step that detects game over restarts the session in
the same step.  On the grid the board is the freshly initialised one, so the piece just
locked is gone, and a piece of a type in `0..6` with its catalog shape stands at the spawn
anchor `(3, -1)`. -/
theorem game_over_restart (g : TetrisApp) (rnd : Nat → Nat) (h : BlockArrived_over g = true) :
    GridEq (BlockArrived g rnd).map (mapInitialize g.map) ∧
    (BlockArrived g rnd).x = 3 ∧ (BlockArrived g rnd).y = -1 ∧
    (BlockArrived g rnd).TYPE < 7 ∧
    ShapeEq (BlockArrived g rnd).CBlock (BLOCK (BlockArrived g rnd).TYPE) := by
  obtain ⟨h1, -, h3, h4, h5, -, h7⟩ := BlockArrived_restart g rnd h
  refine ⟨fun r c hg => by rw [h1 r c hg, mapInitialize_gridEq g.map r c hg], h3, h4, ?_, ?_⟩
  · rw [h5]
    exact Nat.mod_lt _ (by decide)
  · rw [h5]
    exact h7

theorem game_over_restart_witness :
    BlockArrived_over ⟨holeInRow4, BLOCK 1, 3, 0, 1, 1, 50⟩ = true ∧
    (BlockArrived ⟨holeInRow4, BLOCK 1, 3, 0, 1, 1, 50⟩ (fun _ => 0)).x = 3 ∧
    (BlockArrived ⟨holeInRow4, BLOCK 1, 3, 0, 1, 1, 50⟩ (fun _ => 0)).y = -1 :=
  ⟨by decide,
    (game_over_restart ⟨holeInRow4, BLOCK 1, 3, 0, 1, 1, 50⟩ (fun _ => 0) (by decide)).2.1,
    (game_over_restart ⟨holeInRow4, BLOCK 1, 3, 0, 1, 1, 50⟩ (fun _ => 0) (by decide)).2.2.1⟩

/-! ## Rows read by the line clearing -/

/-- The board of the lock step when the test `checkOver()` after the merge is false. -/
theorem BlockArrived_map_of_not_over (g : TetrisApp) (rnd : Nat → Nat)
    (h : BlockArrived_over g = false) :
    (BlockArrived g rnd).map =
      (checkLine (blockToMap g.map g.CBlock g.x g.y) g.y g.score).1 := by
  rw [BlockArrived_of_not_over g rnd h]

/-- The hard drop of the T piece (type 4) on a freshly initialised session stops at row 18
and its lock does not declare the game over. -/
theorem hardDrop_T_fresh (g0 s : TetrisApp) (rnd : Nat → Nat) (h : rnd 0 % 7 = 4)
    (e : s = GameInitialize g0 rnd) :
    hardDropLoop 30 s = some { s with y := 18 } ∧
    BlockArrived_over { s with y := 18 } = false := by
  have hm : GridEq s.map wellBoard := by rw [e]; exact mapInitialize_gridEq _
  have hs : ShapeEq s.CBlock (BLOCK 4) := by
    rw [e]
    intro i j a b c d
    show blockInitialize g0.CBlock (rnd 0 % 7) i j = _
    rw [h]
    exact blockInitialize_cell _ _ i j a b c d
  have hx : s.x = 3 := by rw [e]; show (WIDTH / 2 - 2 : Int) = 3; decide
  have hy : s.y = -1 := by rw [e]; rfl
  constructor
  · rw [hardDropLoop_eq_dropRow, dropRow_congr _ wellBoard _ (BLOCK 4) _ hm hs, hx, hy]
    rw [show dropRow wellBoard (BLOCK 4) 3 30 (-1) = some 18 from by decide]
    rfl
  · show checkOver (blockToMap s.map s.CBlock s.x 18) = false
    rw [checkOver_congr _ _ (blockToMap_gridEq _ wellBoard _ (BLOCK 4) _ _ hm hs), hx]
    decide

/-- C13, at the failing input: on a freshly initialised session whose piece is the T piece
(type 4), the hard drop stops at row 18, the lock step does not declare the game over and so
calls `checkLine(18, &score)`, whose reads are in the rows 18..22; row 22 is not a row of the
board. -/
theorem checkLine_reads_row_22 :
    hardDropLoop 30 freshT = some { freshT with y := 18 } ∧
    (BlockArrived { freshT with y := 18 } (fun _ => 4)).map =
      (checkLine (blockToMap freshT.map freshT.CBlock freshT.x 18) 18 freshT.score).1 ∧
    checkLineRows 18 = [18, 19, 20, 21, 22] ∧
    ¬ (∀ r ∈ checkLineRows 18, 0 ≤ r ∧ r < HEIGHT) := by
  have hrows : checkLineRows 18 = [18, 19, 20, 21, 22] := by decide
  have hout : ¬ (∀ r ∈ checkLineRows 18, 0 ≤ r ∧ r < HEIGHT) := by
    rw [hrows]
    decide
  obtain ⟨h1, h2⟩ := hardDrop_T_fresh ⟨wellBoard, BLOCK 0, 0, 0, 0, 0, 0⟩ freshT (fun _ => 4)
    rfl rfl
  exact ⟨h1, BlockArrived_map_of_not_over _ _ h2, hrows, hout⟩

/-! ## The no-overlap invariant -/

/-- A hard drop from the spawn anchor that ends in a lock which clears no line and does not
declare the game over, stated for boards and shapes known on the grid. -/
theorem drop_step (g : TetrisApp) (rnd : Nat → Nat) (W : Grid) (t : Nat) (yf : Int)
    (hr : Reachable g) (hm : GridEq g.map W) (hs : ShapeEq g.CBlock (BLOCK t))
    (hx : g.x = 3) (hy : g.y = -1)
    (hdrop : dropRow W (BLOCK t) 3 30 (-1) = some yf) (hy0 : 0 ≤ yf) (hy21 : yf + 4 ≤ 21)
    (hover : checkOver (blockToMap W (BLOCK t) 3 yf) = false)
    (hflag : ∀ i, 0 ≤ i → i < 5 → lineFlag (blockToMap W (BLOCK t) 3 yf) (yf + i) = false) :
    ∃ g1, Reachable g1 ∧ GridEq g1.map (blockToMap W (BLOCK t) 3 yf) ∧
      ShapeEq g1.CBlock (BLOCK g.NextTYPE) ∧ g1.x = 3 ∧ g1.y = -1 ∧
      g1.NextTYPE = rnd 0 % 7 := by
  obtain ⟨g1, f1, -, f3, -, f5, f6, f7, -, f9⟩ := space_plain g rnd W (BLOCK t) 30 yf hm hs
    (by rw [hx, hy]; exact hdrop) hy0 hy21 (by rw [hx]; exact hover) (by rw [hx]; exact hflag)
  rw [hx] at f3
  exact ⟨g1, Reachable.space 30 rnd g1 hr f1, f3, f5, f6, f7, f9⟩

/-- Against C12 as stated, a reachable state in which the active piece overlaps locked cells:
four vertical I pieces are hard-dropped at the spawn column, which fills column 5 from row 20 up to row 5;
the square dropped on them locks in rows 3 and 4 without touching row 1, so the game is not
declared over; the I piece spawned next at `(3, -1)` covers rows 0..3 of column 5. -/
theorem spawn_overlap_reachable :
    ∃ g, Reachable g ∧ checkBlock g.map g.x g.y g.CBlock = true := by
  have r0 : Reachable (GameInitialize ⟨wellBoard, BLOCK 0, 0, 0, 0, 0, 0⟩ (fun _ => 1)) :=
    Reachable.init _ _
  have m0 : GridEq (GameInitialize ⟨wellBoard, BLOCK 0, 0, 0, 0, 0, 0⟩ (fun _ => 1)).map
      wellBoard := mapInitialize_gridEq _
  have s0 : ShapeEq (GameInitialize ⟨wellBoard, BLOCK 0, 0, 0, 0, 0, 0⟩ (fun _ => 1)).CBlock
      (BLOCK 1) := fun i j a b c d => blockInitialize_cell (BLOCK 0) 1 i j a b c d
  obtain ⟨g1, r1, m1, s1, x1, y1, n1⟩ := drop_step _ (fun _ => 1) wellBoard 1 16 r0 m0 s0
    (by show (WIDTH / 2 - 2 : Int) = 3; decide) rfl
    (by decide) (by decide) (by decide) (by decide) (by decide)
  have s1' : ShapeEq g1.CBlock (BLOCK 1) := s1
  obtain ⟨g2, r2, m2, s2, x2, y2, n2⟩ := drop_step g1 (fun _ => 1) _ 1 12 r1 m1 s1' x1 y1
    (by decide) (by decide) (by decide) (by decide) (by decide)
  rw [n1] at s2
  have s2' : ShapeEq g2.CBlock (BLOCK 1) := s2
  obtain ⟨g3, r3, m3, s3, x3, y3, n3⟩ := drop_step g2 (fun _ => 0) _ 1 8 r2 m2 s2' x2 y2
    (by decide) (by decide) (by decide) (by decide) (by decide)
  rw [n2] at s3
  have s3' : ShapeEq g3.CBlock (BLOCK 1) := s3
  obtain ⟨g4, r4, m4, s4, x4, y4, n4⟩ := drop_step g3 (fun _ => 1) _ 1 4 r3 m3 s3' x3 y3
    (by decide) (by decide) (by decide) (by decide) (by decide)
  rw [n3] at s4
  have s4' : ShapeEq g4.CBlock (BLOCK 0) := s4
  obtain ⟨g5, r5, m5, s5, x5, y5, -⟩ := drop_step g4 (fun _ => 1) _ 0 1 r4 m4 s4' x4 y4
    (by decide) (by decide) (by decide) (by decide) (by decide)
  rw [n4] at s5
  have s5' : ShapeEq g5.CBlock (BLOCK 1) := s5
  refine ⟨g5, r5, ?_⟩
  rw [checkBlock_congr_map _ _ _ _ _ _ m5 s5', x5, y5]
  decide

/-- On a freshly reset board no shape collides at the spawn anchor. -/
theorem spawn_free_on_fresh (m S : Grid) (hm : GridEq m wellBoard) :
    checkBlock m 3 (-1) S = false := by
  rw [checkBlock_congr_map m wellBoard S S 3 (-1) hm (fun _ _ _ _ _ _ => rfl),
    ← Bool.not_eq_true, checkBlock_eq_true]
  rintro ⟨i, j, i0, i5, j0, j5, -, -, hw⟩
  unfold wellBoard at hw
  split_ifs at hw <;> omega

/-- C12, as the code has it: `checkBlock(x, y, CBlock)` is false right after
`GameInitialize`, and a state in which it is false keeps it false under `MoveRight`,
`MoveLeft`, `Rotate`, `SoftDropStep`, a gravity descent and the descent of the hard drop.
The lock step spawns the next piece without a collision test. -/
theorem no_overlap_preserved (g g0 : TetrisApp) (rnd : Nat → Nat) :
    checkBlock (GameInitialize g0 rnd).map (GameInitialize g0 rnd).x (GameInitialize g0 rnd).y
      (GameInitialize g0 rnd).CBlock = false ∧
    (checkBlock g.map g.x g.y g.CBlock = false →
      checkBlock (OnKeyboardInput_RIGHT g).map (OnKeyboardInput_RIGHT g).x
        (OnKeyboardInput_RIGHT g).y (OnKeyboardInput_RIGHT g).CBlock = false ∧
      checkBlock (OnKeyboardInput_LEFT g).map (OnKeyboardInput_LEFT g).x
        (OnKeyboardInput_LEFT g).y (OnKeyboardInput_LEFT g).CBlock = false ∧
      checkBlock (OnKeyboardInput_UP g).map (OnKeyboardInput_UP g).x
        (OnKeyboardInput_UP g).y (OnKeyboardInput_UP g).CBlock = false ∧
      checkBlock (OnKeyboardInput_DOWN g).map (OnKeyboardInput_DOWN g).x
        (OnKeyboardInput_DOWN g).y (OnKeyboardInput_DOWN g).CBlock = false ∧
      (checkBlock g.map g.x (g.y + 1) g.CBlock = false →
        checkBlock (Update_gravity g rnd).map (Update_gravity g rnd).x
          (Update_gravity g rnd).y (Update_gravity g rnd).CBlock = false) ∧
      (∀ fuel g1, hardDropLoop fuel g = some g1 →
        checkBlock g1.map g1.x g1.y g1.CBlock = false)) := by
  refine ⟨?_, fun h => ⟨?_, ?_, ?_, ?_, fun hd => ?_, fun fuel g1 hl => ?_⟩⟩
  · have hx : (GameInitialize g0 rnd).x = 3 := by show (WIDTH / 2 - 2 : Int) = 3; decide
    have hy : (GameInitialize g0 rnd).y = -1 := rfl
    rw [hx, hy]
    exact spawn_free_on_fresh _ _ (mapInitialize_gridEq _)
  · unfold OnKeyboardInput_RIGHT
    by_cases hc : checkBlock g.map (g.x + 1) g.y g.CBlock = true
    · simp only [hc, Bool.not_true, Bool.false_eq_true, if_false]
      exact h
    · have hc' : checkBlock g.map (g.x + 1) g.y g.CBlock = false := by simpa using hc
      simp only [hc', Bool.not_false, if_true]
  · unfold OnKeyboardInput_LEFT
    by_cases hc : checkBlock g.map (g.x - 1) g.y g.CBlock = true
    · simp only [hc, Bool.not_true, Bool.false_eq_true, if_false]
      exact h
    · have hc' : checkBlock g.map (g.x - 1) g.y g.CBlock = false := by simpa using hc
      simp only [hc', Bool.not_false, if_true]
  · unfold OnKeyboardInput_UP
    by_cases ht : g.TYPE ≠ 0
    · rw [if_pos ht]
      show checkBlock g.map g.x g.y (blockRoll g.map g.CBlock g.x g.y).2 = false
      unfold blockRoll
      by_cases hc : checkBlock g.map g.x g.y (rollFill g.CBlock (fun _ _ => 0)) = true
      · simp only [hc, bne_self_eq_false, Bool.false_eq_true, if_false]
        exact h
      · have hc' : checkBlock g.map g.x g.y (rollFill g.CBlock (fun _ _ => 0)) = false := by
          simpa using hc
        simp only [hc', bne_iff_ne, ne_eq, Bool.false_eq_true, not_false_eq_true, if_true]
        rw [checkBlock_congr g.map _ (rollFill g.CBlock (fun _ _ => 0)) g.x g.y
          (fun i j a b c d => rollCopy_cell _ _ i j a b c d)]
        exact hc'
    · rw [if_neg ht]
      exact h
  · unfold OnKeyboardInput_DOWN
    by_cases hc : checkBlock g.map g.x (g.y + 1) g.CBlock = true
    · simp only [hc, Bool.not_true, Bool.false_eq_true, if_false]
      exact h
    · have hc' : checkBlock g.map g.x (g.y + 1) g.CBlock = false := by simpa using hc
      simp only [hc', Bool.not_false, if_true]
  · unfold Update_gravity
    simp only [hd, Bool.not_false, if_true]
  · obtain ⟨e1, e2, -, e4⟩ := hardDropLoop_some fuel g g1 hl
    have ex : g1.x = g.x := by rw [e1]
    have ec : g1.CBlock = g.CBlock := by rw [e1]
    have em : g1.map = g.map := by rw [e1]
    rw [ex, ec, em]
    by_cases q : g1.y = g.y
    · rw [q]; exact h
    · exact e4 g1.y (by omega) (le_refl _)

theorem no_overlap_preserved_witness :
    checkBlock wellBoard 3 5 (BLOCK 1) = false ∧
    checkBlock (OnKeyboardInput_RIGHT ⟨wellBoard, BLOCK 1, 3, 5, 1, 1, 0⟩).map
      (OnKeyboardInput_RIGHT ⟨wellBoard, BLOCK 1, 3, 5, 1, 1, 0⟩).x
      (OnKeyboardInput_RIGHT ⟨wellBoard, BLOCK 1, 3, 5, 1, 1, 0⟩).y
      (OnKeyboardInput_RIGHT ⟨wellBoard, BLOCK 1, 3, 5, 1, 1, 0⟩).CBlock = false ∧
    checkBlock wellBoard 3 (5 + 1) (BLOCK 1) = false ∧
    checkBlock (Update_gravity ⟨wellBoard, BLOCK 1, 3, 5, 1, 1, 0⟩ (fun _ => 0)).map
      (Update_gravity ⟨wellBoard, BLOCK 1, 3, 5, 1, 1, 0⟩ (fun _ => 0)).x
      (Update_gravity ⟨wellBoard, BLOCK 1, 3, 5, 1, 1, 0⟩ (fun _ => 0)).y
      (Update_gravity ⟨wellBoard, BLOCK 1, 3, 5, 1, 1, 0⟩ (fun _ => 0)).CBlock = false :=
  ⟨by decide,
    ((no_overlap_preserved ⟨wellBoard, BLOCK 1, 3, 5, 1, 1, 0⟩
      ⟨wellBoard, BLOCK 1, 3, 5, 1, 1, 0⟩ (fun _ => 0)).2 (by decide)).1,
    by decide,
    ((no_overlap_preserved ⟨wellBoard, BLOCK 1, 3, 5, 1, 1, 0⟩
      ⟨wellBoard, BLOCK 1, 3, 5, 1, 1, 0⟩ (fun _ => 0)).2 (by decide)).2.2.2.2.1 (by decide)⟩

/-! ## Gravity step -/

/-- C21: the gravity step of `Update` with the elapsed time as an input.  Below the interval
of 1 second the state (so the anchor) and the recorded clock value are unchanged.  From the
interval on, when `checkBlock(x, y + 1, CBlock)` is false the anchor row grows by exactly 1,
the clock is set to the current time and column, shape, board and score are unchanged; when
it is true the piece is locked by `BlockArrived` at its current anchor (and the recorded clock
value is left as it was). -/
theorem Update_spec (g : TetrisApp) (prev curr : Int) (elapsed : ℚ) (rnd : Nat → Nat) :
    (elapsed < 1 → Update g prev curr elapsed rnd = (g, prev)) ∧
    (1 ≤ elapsed → checkBlock g.map g.x (g.y + 1) g.CBlock = false →
      (Update g prev curr elapsed rnd).1.y = g.y + 1 ∧
      (Update g prev curr elapsed rnd).2 = curr ∧
      (Update g prev curr elapsed rnd).1.x = g.x ∧
      (Update g prev curr elapsed rnd).1.CBlock = g.CBlock ∧
      (Update g prev curr elapsed rnd).1.map = g.map ∧
      (Update g prev curr elapsed rnd).1.score = g.score) ∧
    (1 ≤ elapsed → checkBlock g.map g.x (g.y + 1) g.CBlock = true →
      (Update g prev curr elapsed rnd).1 = BlockArrived g rnd ∧
      (Update g prev curr elapsed rnd).2 = prev) ∧
    (1 ≤ elapsed → (Update g prev curr elapsed rnd).1 = Update_gravity g rnd) := by
  refine ⟨fun h => ?_, fun h hc => ?_, fun h hc => ?_, fun h => ?_⟩
  · unfold Update
    rw [if_neg (not_le.2 h)]
  · unfold Update
    rw [if_pos h]
    simp only [hc, Bool.not_false, if_true, and_self]
  · unfold Update
    rw [if_pos h]
    simp only [hc, Bool.not_true, Bool.false_eq_true, if_false, and_self]
  · unfold Update Update_gravity
    rw [if_pos h]
    split <;> rfl

theorem Update_spec_witness :
    (1 / 2 : ℚ) < 1 ∧
    Update ⟨wellBoard, BLOCK 1, 3, 5, 1, 1, 0⟩ 100 160 (1 / 2) (fun _ => 0)
      = (⟨wellBoard, BLOCK 1, 3, 5, 1, 1, 0⟩, 100) ∧
    (1 : ℚ) ≤ 3 / 2 ∧ checkBlock wellBoard 3 (5 + 1) (BLOCK 1) = false ∧
    (Update ⟨wellBoard, BLOCK 1, 3, 5, 1, 1, 0⟩ 100 160 (3 / 2) (fun _ => 0)).1.y = 5 + 1 ∧
    (Update ⟨wellBoard, BLOCK 1, 3, 5, 1, 1, 0⟩ 100 160 (3 / 2) (fun _ => 0)).2 = 160 ∧
    checkBlock wellBoard 3 (16 + 1) (BLOCK 1) = true ∧
    (Update ⟨wellBoard, BLOCK 1, 3, 16, 1, 1, 0⟩ 100 160 (3 / 2) (fun _ => 0)).1
      = BlockArrived ⟨wellBoard, BLOCK 1, 3, 16, 1, 1, 0⟩ (fun _ => 0) :=
  ⟨by norm_num,
    (Update_spec ⟨wellBoard, BLOCK 1, 3, 5, 1, 1, 0⟩ 100 160 (1 / 2) (fun _ => 0)).1
      (by norm_num),
    by norm_num, by decide,
    ((Update_spec ⟨wellBoard, BLOCK 1, 3, 5, 1, 1, 0⟩ 100 160 (3 / 2) (fun _ => 0)).2.1
      (by norm_num) (by decide)).1,
    ((Update_spec ⟨wellBoard, BLOCK 1, 3, 5, 1, 1, 0⟩ 100 160 (3 / 2) (fun _ => 0)).2.1
      (by norm_num) (by decide)).2.1,
    by decide,
    ((Update_spec ⟨wellBoard, BLOCK 1, 3, 16, 1, 1, 0⟩ 100 160 (3 / 2) (fun _ => 0)).2.2.1
      (by norm_num) (by decide)).1⟩

/-! ## The square template under rotation -/

/-- Against C22 as stated: the transform of `blockRoll` moves the filled cell `(2, 2)` of the
square template to `(1, 2)`, which is `Empty` in `BLOCK[0]`. -/
theorem square_template_not_invariant :
    (fun i j : Int => BLOCK 0 j (4 - i)) 1 2 = 4 ∧
    rollFill (BLOCK 0) (fun _ _ => 0) 1 2 = 4 ∧ BLOCK 0 1 2 = 9 := by
  refine ⟨by decide, ?_, by decide⟩
  rw [rollFill_cell _ _ 1 2 (by decide) (by decide) (by decide) (by decide)]
  decide

theorem square_template_cells :
    ∀ i, 0 ≤ i → i < 5 → ∀ j, 0 ≤ j → j < 5 →
      BLOCK 0 i j = (if (i = 2 ∨ i = 3) ∧ (j = 2 ∨ j = 3) then 4 else 9) ∧
      BLOCK 0 j (4 - i) = (if (i = 1 ∨ i = 2) ∧ (j = 2 ∨ j = 3) then 4 else 9) := by
  decide

/-- C22, as the code has it: `BLOCK[0]` holds colour 4 in rows 2..3 of columns 2..3, and the
transform `s'[i][j] = s[j][4 - i]` of `blockRoll` turns it into the same square one row
higher, in rows 1..2 of columns 2..3; a 2 x 2 square has no centred place in the 5 x 5 box.
Four applications give `BLOCK[0]` back. -/
theorem square_template_rotated (z : Grid) (i j : Int)
    (hi0 : 0 ≤ i) (hi5 : i < 5) (hj0 : 0 ≤ j) (hj5 : j < 5) :
    BLOCK 0 i j = (if (i = 2 ∨ i = 3) ∧ (j = 2 ∨ j = 3) then 4 else 9) ∧
    rollFill (BLOCK 0) z i j = (if (i = 1 ∨ i = 2) ∧ (j = 2 ∨ j = 3) then 4 else 9) ∧
    rollFill (rollFill (rollFill (rollFill (BLOCK 0) z) z) z) z i j = BLOCK 0 i j := by
  refine ⟨(square_template_cells i hi0 hi5 j hj0 hj5).1, ?_, ?_⟩
  · rw [rollFill_cell _ _ i j hi0 hi5 hj0 hj5]
    exact (square_template_cells i hi0 hi5 j hj0 hj5).2
  · rw [rollFill_cell _ _ i j hi0 hi5 hj0 hj5,
      rollFill_cell _ _ j (4 - i) hj0 hj5 (by omega) (by omega),
      rollFill_cell _ _ (4 - i) (4 - j) (by omega) (by omega) (by omega) (by omega),
      rollFill_cell _ _ (4 - j) (4 - (4 - i)) (by omega) (by omega) (by omega) (by omega)]
    have e1 : 4 - (4 - i) = i := by ring
    have e2 : 4 - (4 - j) = j := by ring
    rw [e1, e2]

theorem square_template_rotated_witness :
    (0 : Int) ≤ 1 ∧ (1 : Int) < 5 ∧ (0 : Int) ≤ 3 ∧ (3 : Int) < 5 ∧
    BLOCK 0 1 3 = 9 ∧ rollFill (BLOCK 0) wellBoard 1 3 = 4 :=
  ⟨by decide, by decide, by decide, by decide,
    (square_template_rotated wellBoard 1 3 (by decide) (by decide) (by decide) (by decide)).1,
    (square_template_rotated wellBoard 1 3 (by decide) (by decide) (by decide)
      (by decide)).2.1⟩

/-! ## Termination of the hard drop -/

theorem hardDropLoop_mono (n : Nat) :
    ∀ (g g1 : TetrisApp) (k : Nat), hardDropLoop n g = some g1 →
      hardDropLoop (n + k) g = some g1 := by
  induction n with
  | zero => intro g g1 k h; simp [hardDropLoop] at h
  | succ n ih =>
    intro g g1 k h
    have e : n + 1 + k = (n + k) + 1 := by omega
    rw [e]
    unfold hardDropLoop at h ⊢
    by_cases hc : checkBlock g.map g.x (g.y + 1) g.CBlock = true
    · simp only [hc, Bool.not_true, Bool.false_eq_true, if_false] at h ⊢
      exact h
    · have hc' : checkBlock g.map g.x (g.y + 1) g.CBlock = false := by simpa using hc
      simp only [hc', Bool.not_false, if_true] at h ⊢
      exact ih _ g1 k h

/-- C26: on a board whose row 21 is `Wall` in every column, for a piece with a colour cell
`(i, j)` over a grid column and not below row 20, the loop of the hard drop started at `y0`
stops: `20 - (y0 + i) + 1` tests are enough (and any larger bound gives the same result), the
final row `yf` is reached by `yf - y0 <= 20 - (y0 + i)` increments, and `yf + i <= 20`. -/
theorem hardDrop_terminates (g : TetrisApp) (i j : Int)
    (hi0 : 0 ≤ i) (hi5 : i < 5) (hj0 : 0 ≤ j) (hj5 : j < 5)
    (hc : isLocked (g.CBlock i j)) (hx0 : 0 ≤ g.x + j) (hx1 : g.x + j < WIDTH)
    (hy : g.y + i ≤ 20) (hfloor : ∀ c, 0 ≤ c → c < WIDTH → isWall (g.map 21 c)) :
    ∃ g1, hardDropLoop ((20 - (g.y + i)).toNat + 1) g = some g1 ∧
      (∀ k, hardDropLoop ((20 - (g.y + i)).toNat + 1 + k) g = some g1) ∧
      g1 = { g with y := g1.y } ∧
      g.y ≤ g1.y ∧ g1.y - g.y ≤ 20 - (g.y + i) ∧ g1.y + i ≤ 20 := by
  obtain ⟨g1, h1, h2⟩ := hardDropLoop_terminates i j hi0 hi5 hj0 hj5 _ g rfl hy hc hx0 hx1
    hfloor
  obtain ⟨e1, e2, -, -⟩ := hardDropLoop_some _ g g1 h1
  exact ⟨g1, h1, fun k => hardDropLoop_mono _ g g1 k h1, e1, e2, by omega, h2⟩

theorem hardDrop_terminates_witness :
    isLocked (BLOCK 1 4 2) ∧ (-1 : Int) + 4 ≤ 20 ∧
    (∀ c : Int, 0 ≤ c → c < WIDTH → isWall (wellBoard 21 c)) ∧
    ∃ g1, hardDropLoop ((20 - (-1 + 4 : Int)).toNat + 1) ⟨wellBoard, BLOCK 1, 3, -1, 1, 1, 0⟩
        = some g1 ∧
      (∀ k, hardDropLoop ((20 - (-1 + 4 : Int)).toNat + 1 + k)
        ⟨wellBoard, BLOCK 1, 3, -1, 1, 1, 0⟩ = some g1) ∧
      g1 = { (⟨wellBoard, BLOCK 1, 3, -1, 1, 1, 0⟩ : TetrisApp) with y := g1.y } ∧
      -1 ≤ g1.y ∧ g1.y - -1 ≤ 20 - (-1 + 4) ∧ g1.y + 4 ≤ 20 :=
  ⟨by decide, by decide, by decide,
    hardDrop_terminates ⟨wellBoard, BLOCK 1, 3, -1, 1, 1, 0⟩ 4 2 (by decide) (by decide)
      (by decide) (by decide) (by decide) (by decide) (by decide) (by decide) (by decide)⟩

/-! ## Rows that are not full, and the walls -/

theorem flaggedRowsUpTo_succ (m : Grid) (y : Int) (n : Nat) :
    flaggedRowsUpTo m y (n + 1) =
      flaggedRowsUpTo m y n ++ (if lineFlag m (y + n) = true then [y + (n : Int)] else []) := by
  unfold flaggedRowsUpTo
  rw [List.range_succ, List.map_append, List.filter_append]
  congr 1
  by_cases h : lineFlag m (y + n) = true <;> simp [h]

theorem mem_flaggedRowsUpTo (m : Grid) (y : Int) (n : Nat) (r : Int)
    (h : r ∈ flaggedRowsUpTo m y n) : y ≤ r ∧ r < y + n ∧ lineFlag m r = true := by
  unfold flaggedRowsUpTo at h
  rw [List.mem_filter, List.mem_map] at h
  obtain ⟨⟨i, hi, rfl⟩, hf⟩ := h
  rw [List.mem_range] at hi
  exact ⟨by omega, by omega, hf⟩

/-- The state of the loop of `checkLine` after `n` rows, for any board: the rows removed are
those that pass the test on the board before the call. -/
theorem checkLine_loop_flag (map : Grid) (y score : Int) (hy0 : 0 ≤ y) (n : Nat) :
    forLoop (fun i (st : Grid × Int) =>
        if lineFlag st.1 (y + i) = true then (removeLine st.1 (y + i), st.2 + 10) else st)
      0 n (map, score) =
    ((flaggedRowsUpTo map y n).foldl removeLine map,
      score + 10 * ((flaggedRowsUpTo map y n).length : Int)) := by
  have h := forLoop_inv (fun i (st : Grid × Int) =>
        if lineFlag st.1 (y + i) = true then (removeLine st.1 (y + i), st.2 + 10) else st)
    (fun k st => st = ((flaggedRowsUpTo map y k.toNat).foldl removeLine map,
        score + 10 * ((flaggedRowsUpTo map y k.toNat).length : Int)) ∧
      ∀ r', y + k ≤ r' → lineFlag st.1 r' = lineFlag map r') n 0 (map, score)
    (by
      refine ⟨?_, fun r' _ => rfl⟩
      simp [flaggedRowsUpTo])
    (by
      rintro k ⟨m', sc⟩ hk0 hk5 ⟨h1, h2⟩
      simp only at h2
      have hk : ((k + 1).toNat) = k.toNat + 1 := by omega
      have hkc : ((k.toNat : Nat) : Int) = k := Int.toNat_of_nonneg hk0
      have hfl : lineFlag m' (y + k) = lineFlag map (y + k) := h2 (y + k) (le_refl _)
      rw [hk, flaggedRowsUpTo_succ, hkc]
      simp only [Prod.mk.injEq] at h1
      by_cases hf : lineFlag map (y + k) = true
      · have hflag : lineFlag m' (y + k) = true := by rw [hfl]; exact hf
        simp only [hflag, if_true, hf]
        refine ⟨?_, fun r' hr' => ?_⟩
        · rw [List.foldl_append, List.length_append, ← h1.1, h1.2]
          simp only [List.foldl_cons, List.foldl_nil, List.length_singleton, Prod.mk.injEq,
            true_and]
          push_cast
          ring
        · rw [removeLine_lineFlag m' (y + k) r' (by omega) (by omega)]
          exact h2 r' (by omega)
      · have hflag : ¬ lineFlag m' (y + k) = true := by rw [hfl]; exact hf
        simp only [hflag, hf, Bool.false_eq_true, if_false]
        refine ⟨?_, fun r' hr' => h2 r' (by omega)⟩
        rw [List.append_nil, ← h1.1, ← h1.2])
  have h' := h.1
  simp only [zero_add, Int.toNat_ofNat] at h'
  exact h'

theorem checkLine_eq_flagged (map : Grid) (y score : Int) (hy0 : 0 ≤ y) :
    checkLine map y score =
      ((flaggedRowsUpTo map y 5).foldl removeLine map,
        score + 10 * ((flaggedRowsUpTo map y 5).length : Int)) := by
  unfold checkLine forRange
  exact checkLine_loop_flag map y score hy0 5

/-- A row with an interior cell that is `Empty`, `SpawnMarker` or `Wall` fails the test of
`checkLine`. -/
theorem lineFlag_of_hasGap (m : Grid) (r : Int) (h : hasGap m r) : lineFlag m r = false := by
  rw [← Bool.not_eq_true, lineFlag_iff]
  intro hall
  obtain ⟨j, j1, j10, hj⟩ := h
  have := hall j j1 j10
  unfold isEmpty isSpawnMarker isWall at hj
  omega

/-- C23: `checkLine(y, &score)` with `0 <= y` and `y + 4 <= 21`, for every board.  When each
of the rows `y .. y + 4` has an interior cell that is `Empty`, `SpawnMarker` or `Wall`, the
whole board and the score are unchanged.  In general the rows that are removed are among
`y .. y + 4` and had no such cell before the call: a row that holds a `SpawnMarker` is not
removed whatever its other cells hold, and neither is a row 21 that holds a `Wall`. -/
theorem checkLine_keeps_rows_with_gap (m : Grid) (y score : Int) (hy0 : 0 ≤ y)
    (_hy : y + 4 ≤ 21) :
    ((∀ i, 0 ≤ i → i < 5 → hasGap m (y + i)) → checkLine m y score = (m, score)) ∧
    (∃ L : List Int,
      checkLine m y score = (L.foldl removeLine m, score + 10 * (L.length : Int)) ∧
      ∀ r ∈ L, y ≤ r ∧ r ≤ y + 4 ∧
        ∀ j, 1 ≤ j → j < 10 →
          ¬ isEmpty (m r j) ∧ ¬ isSpawnMarker (m r j) ∧ ¬ isWall (m r j)) := by
  refine ⟨fun h => checkLine_noop m y score
      (fun i i0 i5 => lineFlag_of_hasGap m (y + i) (h i i0 i5)),
    flaggedRowsUpTo m y 5, checkLine_eq_flagged m y score hy0, fun r hr => ?_⟩
  obtain ⟨h1, h2, h3⟩ := mem_flaggedRowsUpTo m y 5 r hr
  refine ⟨h1, by push_cast at h2; omega, fun j j1 j10 => ?_⟩
  have hl := (lineFlag_iff m r).1 h3 j j1 j10
  unfold isEmpty isSpawnMarker isWall
  omega

theorem checkLine_keeps_rows_with_gap_witness :
    (0 : Int) ≤ 17 ∧ (17 : Int) + 4 ≤ 21 ∧
    (∀ i : Int, 0 ≤ i → i < 5 → hasGap wellBoard (17 + i)) ∧
    checkLine wellBoard 17 30 = (wellBoard, 30) :=
  ⟨by decide, by decide, by decide,
    (checkLine_keeps_rows_with_gap wellBoard 17 30 (by decide) (by decide)).1 (by decide)⟩

/-- Row removal above the floor keeps the walls. -/
theorem removeLine_walls (m : Grid) (r : Int) (h0 : 0 ≤ r) (h20 : r ≤ 20)
    (hw : WallsIntact m) : WallsIntact (removeLine m r) := by
  obtain ⟨w1, w2⟩ := hw
  refine ⟨fun k k0 k22 => ⟨?_, ?_⟩, fun c c0 c11 => ?_⟩
  · rw [removeLine_cell m r h0]
    unfold shiftedRows
    rw [if_neg (by omega), if_neg (by omega), if_neg (by omega), if_neg (by omega)]
    exact (w1 k k0 k22).1
  · rw [removeLine_cell m r h0]
    unfold shiftedRows
    rw [if_neg (by omega), if_neg (by omega), if_neg (by omega), if_neg (by omega)]
    exact (w1 k k0 k22).2
  · rw [removeLine_cell m r h0]
    unfold shiftedRows
    rw [if_neg (by omega), if_neg (by omega), if_neg (by omega), if_neg (by omega)]
    exact w2 c c0 c11

theorem foldl_removeLine_walls (L : List Int) :
    ∀ m : Grid, WallsIntact m → (∀ r ∈ L, 0 ≤ r ∧ r ≤ 20) →
      WallsIntact (L.foldl removeLine m) := by
  induction L with
  | nil => intro m hw _; exact hw
  | cons r L ih =>
    intro m hw h
    rw [List.foldl_cons]
    exact ih _ (removeLine_walls m r (h r (List.mem_cons_self _ _)).1
      (h r (List.mem_cons_self _ _)).2 hw) (fun r' hr' => h r' (List.mem_cons_of_mem _ hr'))

/-- C25: on a board whose column 0, column 10 and row 21 are all `Wall`, these cells are
still `Wall` after (a) `blockToMap` of a piece of `Empty`/colour cells at an anchor where
`checkBlock` is false and the filled cells are inside the grid, (b) `removeLine(r)` with
`0 <= r <= 20`, and (c) `checkLine(y, &score)` with `0 <= y <= 17`, which never removes
row 21. -/
theorem walls_permanent (m : Grid) (hw : WallsIntact m) :
    (∀ S x y, ValidShape S → FitsGrid S x y → checkBlock m x y S = false →
      WallsIntact (blockToMap m S x y)) ∧
    (∀ r, 0 ≤ r → r ≤ 20 → WallsIntact (removeLine m r)) ∧
    (∀ y score, 0 ≤ y → y ≤ 17 →
      WallsIntact (checkLine m y score).1 ∧
      ∃ L : List Int,
        checkLine m y score = (L.foldl removeLine m, score + 10 * (L.length : Int)) ∧
        21 ∉ L) := by
  refine ⟨fun S x y hs _ hc => ?_, fun r h0 h20 => removeLine_walls m r h0 h20 hw,
    fun y score hy0 hy17 => ?_⟩
  · have keep : ∀ r c, InGrid r c → isWall (m r c) → isWall (blockToMap m S x y r c) := by
      intro r c hg hwall
      rw [blockToMap_cell]
      by_cases e : 0 ≤ r - y ∧ r - y < 5 ∧ 0 ≤ c - x ∧ c - x < 5 ∧ S (r - y) (c - x) ≠ 9
      · exfalso
        have hcol : S (r - y) (c - x) < 7 := by
          rcases hs (r - y) e.1 e.2.1 (c - x) e.2.2.1 e.2.2.2.1 with q | q
          · exact absurd q e.2.2.2.2
          · unfold isLocked at q; omega
        have htrue : checkBlock m x y S = true := by
          rw [checkBlock_eq_true]
          refine ⟨r - y, c - x, e.1, e.2.1, e.2.2.1, e.2.2.2.1, ?_, hcol, ?_⟩
          · rw [show y + (r - y) = r by ring, show x + (c - x) = c by ring]; exact hg
          · rw [show y + (r - y) = r by ring, show x + (c - x) = c by ring]
            unfold isWall at hwall; omega
        rw [hc] at htrue
        exact Bool.false_ne_true htrue
      · rw [if_neg e]; exact hwall
    obtain ⟨w1, w2⟩ := hw
    refine ⟨fun r r0 r22 => ⟨?_, ?_⟩, fun c c0 c11 => ?_⟩
    · exact keep r 0 ⟨r0, r22, by decide, by decide⟩ (w1 r r0 r22).1
    · exact keep r 10 ⟨r0, r22, by decide, by decide⟩ (w1 r r0 r22).2
    · exact keep 21 c ⟨by decide, by decide, c0, c11⟩ (w2 c c0 c11)
  · have hL : ∀ r ∈ flaggedRowsUpTo m y 5, 0 ≤ r ∧ r ≤ 20 := by
      intro r hr
      obtain ⟨h1, h2, h3⟩ := mem_flaggedRowsUpTo m y 5 r hr
      push_cast at h2
      refine ⟨by omega, ?_⟩
      by_contra hgt
      have e : r = 21 := by omega
      rw [e, lineFlag_iff] at h3
      have := h3 1 (by decide) (by decide)
      have hwall := hw.2 1 (by decide) (by decide)
      unfold isWall at hwall
      omega
    have e := checkLine_eq_flagged m y score hy0
    refine ⟨?_, flaggedRowsUpTo m y 5, e, fun h21 => ?_⟩
    · rw [e]
      exact foldl_removeLine_walls _ m hw hL
    · have := (hL 21 h21).2
      omega

theorem walls_permanent_witness :
    WallsIntact twoFullRows ∧ ValidShape (BLOCK 1) ∧ FitsGrid (BLOCK 1) 3 0 ∧
    checkBlock twoFullRows 3 0 (BLOCK 1) = false ∧
    WallsIntact (blockToMap twoFullRows (BLOCK 1) 3 0) ∧
    WallsIntact (removeLine twoFullRows 6) ∧
    WallsIntact (checkLine twoFullRows 5 0).1 :=
  ⟨by decide, by decide, by decide, by decide,
    (walls_permanent twoFullRows (by decide)).1 (BLOCK 1) 3 0 (by decide) (by decide)
      (by decide),
    (walls_permanent twoFullRows (by decide)).2.1 6 (by decide) (by decide),
    ((walls_permanent twoFullRows (by decide)).2.2 5 0 (by decide) (by decide)).1⟩

/-! ## Cells written by the merge -/

/-- An accepted rotation, stated for boards and shapes known on the grid. -/
theorem up_accepted (g : TetrisApp) (W S : Grid) (hm : GridEq g.map W)
    (hs : ShapeEq g.CBlock S) (ht : g.TYPE ≠ 0)
    (h : checkBlock W g.x g.y (fun i j => S j (4 - i)) = false) :
    (OnKeyboardInput_UP g).map = g.map ∧ (OnKeyboardInput_UP g).x = g.x ∧
    (OnKeyboardInput_UP g).y = g.y ∧ (OnKeyboardInput_UP g).TYPE = g.TYPE ∧
    ShapeEq (OnKeyboardInput_UP g).CBlock (fun i j => S j (4 - i)) := by
  have hr : ShapeEq (rollFill g.CBlock (fun _ _ => 0)) (fun i j => S j (4 - i)) := by
    intro i j a b c d
    rw [rollFill_cell _ _ i j a b c d]
    exact hs j (4 - i) c d (by omega) (by omega)
  have hc : checkBlock g.map g.x g.y (rollFill g.CBlock (fun _ _ => 0)) = false := by
    rw [checkBlock_congr_map _ _ _ _ _ _ hm hr]; exact h
  have e : OnKeyboardInput_UP g =
      { g with CBlock := rollCopy g.CBlock (rollFill g.CBlock (fun _ _ => 0)) } := by
    unfold OnKeyboardInput_UP TetrisApp.blockRoll blockRoll
    simp only [ht, ne_eq, not_false_eq_true, if_true, hc, bne_iff_ne, Bool.false_eq_true]
  rw [e]
  refine ⟨rfl, rfl, rfl, rfl, fun i j a b c d => ?_⟩
  show rollCopy g.CBlock (rollFill g.CBlock (fun _ _ => 0)) i j = _
  rw [rollCopy_cell _ _ i j a b c d]
  exact hr i j a b c d

/-- From the spawn anchor: an accepted `MoveRight`, then a hard drop that ends in a lock
which clears no line and does not declare the game over. -/
theorem right_drop_step (g : TetrisApp) (rnd : Nat → Nat) (W : Grid) (t : Nat) (yf : Int)
    (hr : Reachable g) (hm : GridEq g.map W) (hs : ShapeEq g.CBlock (BLOCK t))
    (hx : g.x = 3) (hy : g.y = -1)
    (hfree : checkBlock W 3 (-1) (BLOCK t) = false)
    (hright : checkBlock W (3 + 1) (-1) (BLOCK t) = false)
    (hdrop : dropRow W (BLOCK t) 4 30 (-1) = some yf) (hy0 : 0 ≤ yf) (hy21 : yf + 4 ≤ 21)
    (hover : checkOver (blockToMap W (BLOCK t) 4 yf) = false)
    (hflag : ∀ i, 0 ≤ i → i < 5 → lineFlag (blockToMap W (BLOCK t) 4 yf) (yf + i) = false) :
    checkBlock g.map g.x g.y g.CBlock = false ∧
    ∃ g1, Reachable g1 ∧ GridEq g1.map (blockToMap W (BLOCK t) 4 yf) ∧
      ShapeEq g1.CBlock (BLOCK g.NextTYPE) ∧ g1.x = 3 ∧ g1.y = -1 ∧
      g1.TYPE = g.NextTYPE ∧ g1.NextTYPE = rnd 0 % 7 := by
  have hnow : checkBlock g.map g.x g.y g.CBlock = false := by
    rw [checkBlock_congr_map _ _ _ _ _ _ hm hs, hx, hy]; exact hfree
  obtain ⟨-, e⟩ := right_accepted g W (BLOCK t) hm hs (by rw [hx, hy]; exact hright)
  have hr1 : Reachable (OnKeyboardInput_RIGHT g) := Reachable.right hr
  have hx1 : (OnKeyboardInput_RIGHT g).x = 4 := by rw [e]; show g.x + 1 = 4; rw [hx]; rfl
  have hy1 : (OnKeyboardInput_RIGHT g).y = -1 := by rw [e]; exact hy
  have hm1 : GridEq (OnKeyboardInput_RIGHT g).map W := by rw [e]; exact hm
  have hs1 : ShapeEq (OnKeyboardInput_RIGHT g).CBlock (BLOCK t) := by rw [e]; exact hs
  have hn1 : (OnKeyboardInput_RIGHT g).NextTYPE = g.NextTYPE := by rw [e]
  obtain ⟨g1, f1, -, f3, -, f5, f6, f7, f8, f9⟩ :=
    space_plain (OnKeyboardInput_RIGHT g) rnd W (BLOCK t) 30 yf hm1 hs1
      (by rw [hx1, hy1]; exact hdrop) hy0 hy21 (by rw [hx1]; exact hover)
      (by rw [hx1]; exact hflag)
  rw [hx1] at f3
  rw [hn1] at f5 f8
  exact ⟨hnow, g1, Reachable.space 30 rnd g1 hr1 f1, f3, f5, f6, f7, f8, f9⟩

/-- A reachable state with no overlap at any spawn: four vertical I pieces and a square are
moved one column to the right and hard-dropped, then an I piece stands at the spawn anchor
on the board `stackBesideSpawn`. -/
theorem stackBesideSpawn_reachable :
    ∃ g, Reachable g ∧ GridEq g.map stackBesideSpawn ∧ ShapeEq g.CBlock (BLOCK 1) ∧
      g.x = 3 ∧ g.y = -1 ∧ g.TYPE = 1 := by
  have r0 : Reachable (GameInitialize ⟨wellBoard, BLOCK 0, 0, 0, 0, 0, 0⟩ (fun _ => 1)) :=
    Reachable.init _ _
  have m0 : GridEq (GameInitialize ⟨wellBoard, BLOCK 0, 0, 0, 0, 0, 0⟩ (fun _ => 1)).map
      wellBoard := mapInitialize_gridEq _
  have s0 : ShapeEq (GameInitialize ⟨wellBoard, BLOCK 0, 0, 0, 0, 0, 0⟩ (fun _ => 1)).CBlock
      (BLOCK 1) := fun i j a b c d => blockInitialize_cell (BLOCK 0) 1 i j a b c d
  obtain ⟨-, g1, r1, m1, s1, x1, y1, -, n1⟩ := right_drop_step _ (fun _ => 1) wellBoard 1 16
    r0 m0 s0 (by show (WIDTH / 2 - 2 : Int) = 3; decide) rfl
    (by decide) (by decide) (by decide) (by decide) (by decide) (by decide) (by decide)
  have s1' : ShapeEq g1.CBlock (BLOCK 1) := s1
  obtain ⟨-, g2, r2, m2, s2, x2, y2, -, n2⟩ := right_drop_step g1 (fun _ => 1) _ 1 12
    r1 m1 s1' x1 y1
    (by decide) (by decide) (by decide) (by decide) (by decide) (by decide) (by decide)
  rw [n1] at s2
  have s2' : ShapeEq g2.CBlock (BLOCK 1) := s2
  obtain ⟨-, g3, r3, m3, s3, x3, y3, -, n3⟩ := right_drop_step g2 (fun _ => 0) _ 1 8
    r2 m2 s2' x2 y2
    (by decide) (by decide) (by decide) (by decide) (by decide) (by decide) (by decide)
  rw [n2] at s3
  have s3' : ShapeEq g3.CBlock (BLOCK 1) := s3
  obtain ⟨-, g4, r4, m4, s4, x4, y4, -, n4⟩ := right_drop_step g3 (fun _ => 1) _ 1 4
    r3 m3 s3' x3 y3
    (by decide) (by decide) (by decide) (by decide) (by decide) (by decide) (by decide)
  rw [n3] at s4
  have s4' : ShapeEq g4.CBlock (BLOCK 0) := s4
  obtain ⟨-, g5, r5, m5, s5, x5, y5, t5, -⟩ := right_drop_step g4 (fun _ => 1) _ 0 1
    r4 m4 s4' x4 y4
    (by decide) (by decide) (by decide) (by decide) (by decide) (by decide) (by decide)
  rw [n4] at s5 t5
  exact ⟨g5, r5, m5, s5, x5, y5, t5⟩

/-- C24, at the failing input: a reachable state in which the I piece, rotated twice at
anchor row `-1` and moved one column to the right, stands at `(4, -1)` with its filled cell
`(0, 2)` over the board coordinate `(-1, 6)`.  The piece does not overlap the board, it
cannot descend, so the gravity step locks it there, and `blockToMap` writes `map[-1][6]`,
outside the grid. -/
theorem merge_writes_row_minus_1 :
    ∃ g, Reachable g ∧ g.x = 4 ∧ g.y = -1 ∧
      checkBlock g.map g.x g.y g.CBlock = false ∧
      checkBlock g.map g.x (g.y + 1) g.CBlock = true ∧
      (∀ rnd, Update_gravity g rnd = BlockArrived g rnd) ∧
      ¬ isEmpty (g.CBlock 0 2) ∧ ¬ InGrid (g.y + 0) (g.x + 2) ∧
      ¬ FitsGrid g.CBlock g.x g.y ∧
      blockToMap g.map g.CBlock g.x g.y (-1) 6 = 0 := by
  obtain ⟨g, hr, hm, hs, hx, hy, ht⟩ := stackBesideSpawn_reachable
  obtain ⟨m1, x1, y1, t1, s1⟩ := up_accepted g stackBesideSpawn (BLOCK 1) hm hs
    (by rw [ht]; decide) (by rw [hx, hy]; decide)
  rw [← m1] at hm
  rw [hx] at x1
  rw [hy] at y1
  rw [ht] at t1
  obtain ⟨m2, x2, y2, t2, s2⟩ := up_accepted (OnKeyboardInput_UP g) stackBesideSpawn _ hm s1
    (by rw [t1]; decide) (by rw [x1, y1]; decide)
  rw [← m2] at hm
  rw [x1] at x2
  rw [y1] at y2
  obtain ⟨-, e⟩ := right_accepted (OnKeyboardInput_UP (OnKeyboardInput_UP g)) stackBesideSpawn
    _ hm s2 (by rw [x2, y2]; decide)
  have hr3 : Reachable (OnKeyboardInput_RIGHT (OnKeyboardInput_UP (OnKeyboardInput_UP g))) :=
    Reachable.right (Reachable.up (Reachable.up hr))
  generalize OnKeyboardInput_RIGHT (OnKeyboardInput_UP (OnKeyboardInput_UP g)) = g3 at e hr3
  generalize OnKeyboardInput_UP (OnKeyboardInput_UP g) = g2 at e hm s2 x2 y2
  have x3 : g3.x = 4 := by rw [e]; show g2.x + 1 = 4; rw [x2]; rfl
  have y3 : g3.y = -1 := by rw [e]; exact y2
  have m3 : GridEq g3.map stackBesideSpawn := by rw [e]; exact hm
  have s3 : ShapeEq g3.CBlock
      (fun i j => (fun i j : Int => BLOCK 1 j (4 - i)) j (4 - i)) := by rw [e]; exact s2
  have c0 : checkBlock g3.map g3.x g3.y g3.CBlock = false := by
    rw [checkBlock_congr_map _ _ _ _ _ _ m3 s3, x3, y3]; decide
  have c1 : checkBlock g3.map g3.x (g3.y + 1) g3.CBlock = true := by
    rw [checkBlock_congr_map _ _ _ _ _ _ m3 s3, x3, y3]; decide
  have hcell : g3.CBlock 0 2 = 0 := by
    rw [s3 0 2 (by decide) (by decide) (by decide) (by decide)]; decide
  have hne : ¬ isEmpty (g3.CBlock 0 2) := by rw [hcell]; decide
  have hout : ¬ InGrid (g3.y + 0) (g3.x + 2) := by rw [x3, y3]; decide
  refine ⟨g3, hr3, x3, y3, c0, c1, fun rnd => ?_, hne, hout, fun hfit => ?_, ?_⟩
  · unfold Update_gravity
    simp only [c1, Bool.not_true, Bool.false_eq_true, if_false]
  · exact hout (hfit 0 (by decide) (by decide) 2 (by decide) (by decide) hne)
  · rw [blockToMap_cell, x3, y3]
    have e1 : (-1 : Int) - -1 = 0 := by decide
    have e2 : (6 : Int) - 4 = 2 := by decide
    rw [e1, e2, if_pos ⟨by decide, by decide, by decide, by decide, by rw [hcell]; decide⟩]
    exact hcell

end Tetris
